import Mathlib

/-!
Verification of the azoo cryptography service core against its specification.

Go strings and byte slices are modelled as `List Nat` (byte values; all the
strings involved are ASCII, so codepoints and bytes coincide). Machine
integers are modelled as `Nat`/`Int` with explicit `% 2^w` where overflow
matters; bit shifts and masks of the Go sources are rendered with the
equivalent division/modulus arithmetic. Fallible Go functions returning
`(T, error)` are modelled as `Except (List Nat) T`, the payload being the
error message bytes.
-/

namespace Azoo

/-- Bytes of an ASCII Go string literal. -/
def goStr (s : String) : List Nat := s.data.map Char.toNat

/-- Big-endian serialization of `v` into `n` bytes (`binary.BigEndian.PutUintN`). -/
def beBytes : Nat → Nat → List Nat
  | 0, _ => []
  | n + 1, v => beBytes n (v / 256) ++ [v % 256]

/-- Little-endian serialization of `v` into `n` bytes. -/
def leBytes : Nat → Nat → List Nat
  | 0, _ => []
  | n + 1, v => v % 256 :: leBytes n (v / 256)

/-- Big-endian value of a byte list (`binary.BigEndian.UintN`). -/
def beNat (l : List Nat) : Nat := l.foldl (fun acc b => acc * 256 + b) 0

/-- Little-endian value of a byte list. -/
def leNat (l : List Nat) : Nat := l.foldr (fun b acc => acc * 256 + b) 0

theorem beBytes_length : ∀ (n v : Nat), (beBytes n v).length = n := by
  intro n
  induction n with
  | zero => intro v; rfl
  | succ k ih => intro v; simp [beBytes, ih]

theorem leBytes_length : ∀ (n v : Nat), (leBytes n v).length = n := by
  intro n
  induction n with
  | zero => intro v; rfl
  | succ k ih => intro v; simp [leBytes, ih]

/-- Decimal digits of `n` in ASCII, fuel-driven (mirrors `strconv.Itoa`). -/
def toDecAux : Nat → Nat → List Nat
  | 0, _ => []
  | fuel + 1, n => if n < 10 then [48 + n] else toDecAux fuel (n / 10) ++ [48 + n % 10]

/-- ASCII decimal representation of a natural number (`strconv.Itoa`). -/
def toDec (n : Nat) : List Nat := toDecAux (n + 1) n

theorem toDecAux_fuel :
    ∀ (f1 : Nat) (n : Nat) (f2 : Nat), n < f1 → n < f2 → toDecAux f1 n = toDecAux f2 n := by
  intro f1
  induction f1 with
  | zero => intro n f2 h; omega
  | succ k ih =>
    intro n f2 hn hf2
    match f2, hf2 with
    | f + 1, _ =>
      by_cases h10 : n < 10
      · simp [toDecAux, h10]
      · have : n / 10 < k := by omega
        have : n / 10 < f := by omega
        simp only [toDecAux, if_neg h10]
        rw [ih (n / 10) f (by omega) (by omega)]

theorem toDecAux_len :
    ∀ (fuel n d : Nat), n < 10 ^ d → 0 < d → (toDecAux fuel n).length ≤ d := by
  intro fuel
  induction fuel with
  | zero => intro n d _ _; simp [toDecAux]
  | succ k ih =>
    intro n d hn hd
    by_cases h10 : n < 10
    · simpa [toDecAux, h10] using hd
    · have hd2 : 2 ≤ d := by
        by_contra hlt
        have : d = 1 := by omega
        subst this
        simp [pow_one] at hn
        omega
      have hsub : n / 10 < 10 ^ (d - 1) := by
        have hpow : 10 ^ d = 10 ^ (d - 1) * 10 := by
          conv_lhs => rw [show d = (d - 1) + 1 by omega]
          rw [pow_succ]
        rw [Nat.div_lt_iff_lt_mul (by omega)]
        omega
      have := ih (n / 10) (d - 1) hsub (by omega)
      simp only [toDecAux, if_neg h10, List.length_append, List.length_cons,
        List.length_nil]
      omega

theorem toDec_len (n d : Nat) (hn : n < 10 ^ d) (hd : 0 < d) : (toDec n).length ≤ d :=
  toDecAux_len (n + 1) n d hn hd

theorem toDecAux_ne_nil (fuel n : Nat) (h : n < fuel) : toDecAux fuel n ≠ [] := by
  match fuel, h with
  | k + 1, _ =>
    by_cases h10 : n < 10 <;> simp [toDecAux, h10]

/-! ## Base64 (Go `encoding/base64`, raw i.e. unpadded encodings)

`urlSafe = false` is `RawStdEncoding` (alphabet `A-Za-z0-9+/`),
`urlSafe = true` is `RawURLEncoding` (alphabet `A-Za-z0-9-_`).
Go bit operations (`val >> k & 0x3F` etc.) are written as `/ 2^k % 64`. -/

/-- Alphabet lookup `enc.encode[v]` for a 6-bit value. -/
def b64EncChar (urlSafe : Bool) (v : Nat) : Nat :=
  if v < 26 then 65 + v
  else if v < 52 then 97 + (v - 26)
  else if v < 62 then 48 + (v - 52)
  else if v = 62 then (if urlSafe then 45 else 43)
  else (if urlSafe then 95 else 47)

/-- Reverse alphabet lookup `enc.decodeMap[c]`; `none` for characters outside
the alphabet. -/
def b64DecChar (urlSafe : Bool) (c : Nat) : Option Nat :=
  if 65 ≤ c ∧ c ≤ 90 then some (c - 65)
  else if 97 ≤ c ∧ c ≤ 122 then some (26 + (c - 97))
  else if 48 ≤ c ∧ c ≤ 57 then some (52 + (c - 48))
  else if c = (if urlSafe then 45 else 43) then some 62
  else if c = (if urlSafe then 95 else 47) then some 63
  else none

/-- Raw (unpadded) base64 encoding: 3-byte groups become 4 characters, a
trailing group of 1 or 2 bytes becomes 2 or 3 characters. -/
def b64Encode (url : Bool) : List Nat → List Nat
  | [] => []
  | [b1] =>
    [b64EncChar url (b1 * 65536 / 262144 % 64),
     b64EncChar url (b1 * 65536 / 4096 % 64)]
  | [b1, b2] =>
    [b64EncChar url ((b1 * 65536 + b2 * 256) / 262144 % 64),
     b64EncChar url ((b1 * 65536 + b2 * 256) / 4096 % 64),
     b64EncChar url ((b1 * 65536 + b2 * 256) / 64 % 64)]
  | b1 :: b2 :: b3 :: rest =>
    b64EncChar url ((b1 * 65536 + b2 * 256 + b3) / 262144 % 64) ::
    b64EncChar url ((b1 * 65536 + b2 * 256 + b3) / 4096 % 64) ::
    b64EncChar url ((b1 * 65536 + b2 * 256 + b3) / 64 % 64) ::
    b64EncChar url ((b1 * 65536 + b2 * 256 + b3) % 64) ::
    b64Encode url rest

/-- Map every character through the reverse alphabet; `none` as soon as one
character is illegal (Go reports a `CorruptInputError` for it). -/
def b64CharSextets (url : Bool) : List Nat → Option (List Nat)
  | [] => some []
  | c :: rest =>
    match b64DecChar url c, b64CharSextets url rest with
    | some s, some tail => some (s :: tail)
    | _, _ => none

/-- Reassemble bytes from 6-bit values: 4-value quanta yield 3 bytes, a
trailing quantum of 2 or 3 values yields 1 or 2 bytes, a trailing single
value is corrupt input. -/
def b64Assemble : List Nat → Except (List Nat) (List Nat)
  | [] => .ok []
  | [_] => .error (goStr "base64: illegal trailing character")
  | [s1, s2] => .ok [(s1 * 262144 + s2 * 4096) / 65536 % 256]
  | [s1, s2, s3] =>
    .ok [(s1 * 262144 + s2 * 4096 + s3 * 64) / 65536 % 256,
         (s1 * 262144 + s2 * 4096 + s3 * 64) / 256 % 256]
  | s1 :: s2 :: s3 :: s4 :: rest =>
    match b64Assemble rest with
    | .ok tail =>
      .ok ((s1 * 262144 + s2 * 4096 + s3 * 64 + s4) / 65536 % 256 ::
           (s1 * 262144 + s2 * 4096 + s3 * 64 + s4) / 256 % 256 ::
           (s1 * 262144 + s2 * 4096 + s3 * 64 + s4) % 256 :: tail)
    | .error e => .error e

/-- Raw base64 decoding over already-filtered characters. -/
def b64DecodeQuanta (url : Bool) (s : List Nat) : Except (List Nat) (List Nat) :=
  match b64CharSextets url s with
  | none => .error (goStr "base64: illegal character")
  | some sx => b64Assemble sx

/-- Go `Encoding.DecodeString` for the raw encodings: CR and LF characters
are ignored wherever they appear, everything else is decoded strictly. -/
def b64DecodeGo (url : Bool) (s : List Nat) : Except (List Nat) (List Nat) :=
  b64DecodeQuanta url (s.filter (fun c => c != 13 && c != 10))

theorem b64DecChar_encChar (url : Bool) :
    ∀ v, v < 64 → b64DecChar url (b64EncChar url v) = some v := by
  cases url <;> decide

theorem b64EncChar_notin (url : Bool) :
    ∀ v, v < 64 →
      b64EncChar url v ≠ 46 ∧ b64EncChar url v ≠ 13 ∧ b64EncChar url v ≠ 10 := by
  cases url <;> decide

theorem mod64_lt (n : Nat) : n % 64 < 64 := Nat.mod_lt _ (by omega)

theorem b64Encode_mem (url : Bool) :
    ∀ (x : List Nat), ∀ c ∈ b64Encode url x, ∃ v, v < 64 ∧ c = b64EncChar url v
  | [] => by simp [b64Encode]
  | [b1] => by
    intro c hc
    simp only [b64Encode, List.mem_cons, List.not_mem_nil, or_false] at hc
    rcases hc with h | h <;> exact ⟨_, mod64_lt _, h⟩
  | [b1, b2] => by
    intro c hc
    simp only [b64Encode, List.mem_cons, List.not_mem_nil, or_false] at hc
    rcases hc with h | h | h <;> exact ⟨_, mod64_lt _, h⟩
  | b1 :: b2 :: b3 :: rest => by
    intro c hc
    simp only [b64Encode, List.mem_cons] at hc
    rcases hc with h | h | h | h | h
    · exact ⟨_, mod64_lt _, h⟩
    · exact ⟨_, mod64_lt _, h⟩
    · exact ⟨_, mod64_lt _, h⟩
    · exact ⟨_, mod64_lt _, h⟩
    · exact b64Encode_mem url rest c h

/-- The encoder output contains no dot and survives the CR/LF filter intact. -/
theorem b64Encode_filter_crlf (url : Bool) (x : List Nat) :
    (b64Encode url x).filter (fun c => c != 13 && c != 10) = b64Encode url x := by
  apply List.filter_eq_self.mpr
  intro c hc
  obtain ⟨v, hv, rfl⟩ := b64Encode_mem url x c hc
  obtain ⟨-, h13, h10⟩ := b64EncChar_notin url v hv
  simp [h13, h10]

theorem b64Encode_ne_dot (url : Bool) (x : List Nat) : 46 ∉ b64Encode url x := by
  intro hmem
  obtain ⟨v, hv, hc⟩ := b64Encode_mem url x 46 hmem
  exact (b64EncChar_notin url v hv).1 hc.symm

theorem b64CharSextets_encode (url : Bool) :
    ∀ (x : List Nat), (∀ b ∈ x, b < 256) →
      ∃ sx, b64CharSextets url (b64Encode url x) = some sx ∧ b64Assemble sx = .ok x
  | [], _ => ⟨[], rfl, rfl⟩
  | [b1], hx => by
    have h1 : b1 < 256 := hx b1 (by simp)
    refine ⟨[b1 * 65536 / 262144 % 64, b1 * 65536 / 4096 % 64], ?_, ?_⟩
    · simp [b64Encode, b64CharSextets, b64DecChar_encChar url _ (mod64_lt _)]
    · simp only [b64Assemble]
      congr 2
      omega
  | [b1, b2], hx => by
    have h1 : b1 < 256 := hx b1 (by simp)
    have h2 : b2 < 256 := hx b2 (by simp)
    refine ⟨[(b1 * 65536 + b2 * 256) / 262144 % 64, (b1 * 65536 + b2 * 256) / 4096 % 64,
             (b1 * 65536 + b2 * 256) / 64 % 64], ?_, ?_⟩
    · simp [b64Encode, b64CharSextets, b64DecChar_encChar url _ (mod64_lt _)]
    · simp only [b64Assemble]
      congr 2
      · omega
      · congr 1
        omega
  | b1 :: b2 :: b3 :: rest, hx => by
    have h1 : b1 < 256 := hx b1 (by simp)
    have h2 : b2 < 256 := hx b2 (by simp)
    have h3 : b3 < 256 := hx b3 (by simp)
    obtain ⟨sx, hsx, hasm⟩ :=
      b64CharSextets_encode url rest (fun b hb => hx b (by simp [hb]))
    refine ⟨(b1 * 65536 + b2 * 256 + b3) / 262144 % 64 ::
            (b1 * 65536 + b2 * 256 + b3) / 4096 % 64 ::
            (b1 * 65536 + b2 * 256 + b3) / 64 % 64 ::
            (b1 * 65536 + b2 * 256 + b3) % 64 :: sx, ?_, ?_⟩
    · simp [b64Encode, b64CharSextets, b64DecChar_encChar url _ (mod64_lt _), hsx]
    · simp only [b64Assemble, hasm]
      congr 2
      · omega
      · congr 1
        · omega
        · congr 1
          omega

/-- Round trip: decoding an encoding recovers the input bytes. -/
theorem b64_roundtrip (url : Bool) (x : List Nat) (hx : ∀ b ∈ x, b < 256) :
    b64DecodeGo url (b64Encode url x) = .ok x := by
  obtain ⟨sx, hsx, hasm⟩ := b64CharSextets_encode url x hx
  rw [b64DecodeGo, b64Encode_filter_crlf]
  simp only [b64DecodeQuanta, hsx]
  exact hasm

/-- A character outside the alphabet anywhere in the input makes the sextet
pass fail. -/
theorem b64CharSextets_err (url : Bool) :
    ∀ (s : List Nat) (c : Nat), c ∈ s → b64DecChar url c = none →
      b64CharSextets url s = none := by
  intro s
  induction s with
  | nil => intro c hc; simp at hc
  | cons hd tl ih =>
    intro c hc hdec
    rcases List.mem_cons.mp hc with rfl | hmem
    · simp [b64CharSextets, hdec]
    · rw [b64CharSextets, ih c hmem hdec]
      cases b64DecChar url hd <;> rfl

/-- A dot in the input always makes raw-URL base64 decoding fail. -/
theorem b64DecodeGo_dot_err (s : List Nat) (hdot : 46 ∈ s) :
    b64DecodeGo true s = .error (goStr "base64: illegal character") := by
  have hmem : 46 ∈ s.filter (fun c => c != 13 && c != 10) := by
    apply List.mem_filter.mpr
    exact ⟨hdot, by decide⟩
  rw [b64DecodeGo, b64DecodeQuanta, b64CharSextets_err true _ 46 hmem (by decide)]

/-! ## String splitting (Go `strings.SplitN(s, ".", 3)` and full splits) -/

/-- Split a byte string at the first occurrence of `sep`; `none` when `sep`
does not occur. -/
def splitFirst (sep : Nat) : List Nat → Option (List Nat × List Nat)
  | [] => none
  | c :: rest =>
    if c = sep then some ([], rest)
    else
      match splitFirst sep rest with
      | none => none
      | some (a, b) => some (c :: a, b)

/-- Go `strings.SplitN(s, sep, n)` for a single-byte separator. -/
def goSplitN (sep : Nat) : Nat → List Nat → List (List Nat)
  | 0, _ => []
  | 1, s => [s]
  | n + 2, s =>
    match splitFirst sep s with
    | none => [s]
    | some (a, r) => a :: goSplitN sep (n + 1) r

def splitAllAux (sep : Nat) (cur : List Nat) : List Nat → List (List Nat)
  | [] => [cur.reverse]
  | c :: rest =>
    if c = sep then cur.reverse :: splitAllAux sep [] rest
    else splitAllAux sep (c :: cur) rest

/-- Full split of a byte string on every occurrence of `sep`
(Go `strings.Split`): the separator-delimited segments of the string. -/
def splitAll (sep : Nat) (s : List Nat) : List (List Nat) := splitAllAux sep [] s

theorem splitFirst_not_mem (sep : Nat) :
    ∀ (s : List Nat), sep ∉ s → splitFirst sep s = none := by
  intro s
  induction s with
  | nil => intro h; rfl
  | cons c rest ih =>
    intro h
    have hc : c ≠ sep := fun hc => h (hc ▸ List.mem_cons_self c rest)
    have hrest : sep ∉ rest := fun hm => h (List.mem_cons_of_mem c hm)
    simp [splitFirst, hc, ih hrest]

theorem splitFirst_append (sep : Nat) :
    ∀ (a r : List Nat), sep ∉ a → splitFirst sep (a ++ sep :: r) = some (a, r) := by
  intro a
  induction a with
  | nil => intro r _; simp [splitFirst]
  | cons c rest ih =>
    intro r h
    have hc : c ≠ sep := fun hc => h (hc ▸ List.mem_cons_self c rest)
    have hrest : sep ∉ rest := fun hm => h (List.mem_cons_of_mem c hm)
    simp [splitFirst, hc, ih r hrest]

theorem splitFirst_some (sep : Nat) :
    ∀ (s a r : List Nat), splitFirst sep s = some (a, r) →
      s = a ++ sep :: r ∧ sep ∉ a := by
  intro s
  induction s with
  | nil => intro a r h; simp [splitFirst] at h
  | cons c rest ih =>
    intro a r h
    by_cases hc : c = sep
    · subst hc
      simp [splitFirst] at h
      obtain ⟨rfl, rfl⟩ := h
      exact ⟨rfl, by simp⟩
    · simp only [splitFirst, if_neg hc] at h
      cases hsp : splitFirst sep rest with
      | none => rw [hsp] at h; simp at h
      | some p =>
        obtain ⟨a0, r0⟩ := p
        rw [hsp] at h
        simp at h
        obtain ⟨rfl, rfl⟩ := h
        obtain ⟨hrest, hnot⟩ := ih a0 r0 hsp
        constructor
        · rw [hrest]; rfl
        · intro hmem
          rcases List.mem_cons.mp hmem with h1 | h2
          · exact hc h1.symm
          · exact hnot h2

theorem splitAllAux_append (sep : Nat) :
    ∀ (a : List Nat) (cur r : List Nat), sep ∉ a →
      splitAllAux sep cur (a ++ sep :: r) = (cur.reverse ++ a) :: splitAll sep r := by
  intro a
  induction a with
  | nil => intro cur r _; simp [splitAllAux, splitAll]
  | cons c rest ih =>
    intro cur r h
    have hc : c ≠ sep := fun hc => h (hc ▸ List.mem_cons_self c rest)
    have hrest : sep ∉ rest := fun hm => h (List.mem_cons_of_mem c hm)
    simp only [List.cons_append, splitAllAux, if_neg hc]
    rw [List.append_eq, ih (c :: cur) r hrest]
    simp

theorem splitAllAux_not_mem (sep : Nat) :
    ∀ (s cur : List Nat), sep ∉ s → splitAllAux sep cur s = [cur.reverse ++ s] := by
  intro s
  induction s with
  | nil => intro cur _; simp [splitAllAux]
  | cons c rest ih =>
    intro cur h
    have hc : c ≠ sep := fun hc => h (hc ▸ List.mem_cons_self c rest)
    have hrest : sep ∉ rest := fun hm => h (List.mem_cons_of_mem c hm)
    simp only [splitAllAux, if_neg hc]
    rw [ih (c :: cur) hrest]
    simp

theorem splitAll_append (sep : Nat) (a r : List Nat) (h : sep ∉ a) :
    splitAll sep (a ++ sep :: r) = a :: splitAll sep r := by
  rw [splitAll, splitAllAux_append sep a [] r h]
  simp

theorem splitAll_not_mem (sep : Nat) (s : List Nat) (h : sep ∉ s) :
    splitAll sep s = [s] := by
  rw [splitAll, splitAllAux_not_mem sep s [] h]
  simp

/-- First index of byte `b` in `s` (Go `strings.IndexRune` for an ASCII rune). -/
def goIndexByte : List Nat → Nat → Option Nat
  | [], _ => none
  | c :: rest, b => if c = b then some 0 else (goIndexByte rest b).map (· + 1)

theorem goIndexByte_not_mem : ∀ (s : List Nat) (b : Nat), b ∉ s → goIndexByte s b = none := by
  intro s
  induction s with
  | nil => intro b _; rfl
  | cons c rest ih =>
    intro b h
    have hc : c ≠ b := fun hc => h (hc ▸ List.mem_cons_self c rest)
    have hrest : b ∉ rest := fun hm => h (List.mem_cons_of_mem c hm)
    simp [goIndexByte, hc, ih b hrest]

theorem goIndexByte_append (a : List Nat) (b : Nat) (r : List Nat) (h : b ∉ a) :
    goIndexByte (a ++ b :: r) b = some a.length := by
  induction a with
  | nil => simp [goIndexByte]
  | cons c rest ih =>
    have hc : c ≠ b := fun hc => h (hc ▸ List.mem_cons_self c rest)
    have hrest : b ∉ rest := fun hm => h (List.mem_cons_of_mem c hm)
    simp [goIndexByte, hc, ih hrest]

theorem drop_after (a : List Nat) (x : Nat) (r : List Nat) :
    (a ++ x :: r).drop (a.length + 1) = r := by
  rw [show a ++ x :: r = (a ++ [x]) ++ r by simp,
      show a.length + 1 = (a ++ [x]).length by simp]
  exact List.drop_left _ _

/-! ## dvx envelope codec (`encoding.go`) -/

namespace dvx

/-- Version header of the current Protocol implementation. -/
def Version : List Nat := goStr "dv1"

/-- TypePrefix for encrypted content. -/
def Encrypted : List Nat := goStr "enc"

/-- TypePrefix for a signature. -/
def Signed : List Nat := goStr "sig"

/-- TypePrefix for a MAC. -/
def Tagged : List Nat := goStr "tag"

/-- TypePrefix for a TOTP selector id. -/
def TOTP : List Nat := goStr "totp"

/-- Go `Encode`: `fmt.Sprintf("%s.%s.%s", Version, typePfx, RawURLEncoding(data))`. -/
def Encode (tp : List Nat) (data : List Nat) : List Nat :=
  Version ++ 46 :: (tp ++ 46 :: b64Encode true data)

/-- Go `Decode`: split into three dot-separated parts with `strings.SplitN`,
check the version and type prefix, then raw-URL-base64 decode the payload. -/
def Decode (s : List Nat) : Except (List Nat) (List Nat × List Nat × List Nat) :=
  let parts := goSplitN 46 3 s
  if parts.length ≠ 3 then .error (goStr "dvx: invalid format. 3 parts expected")
  else if parts.getD 0 [] ≠ Version then
    .error (goStr "dvx: invalid format. Unknown version")
  else if parts.getD 1 [] ≠ Encrypted ∧ parts.getD 1 [] ≠ Signed ∧
          parts.getD 1 [] ≠ Tagged ∧ parts.getD 1 [] ≠ TOTP then
    .error (goStr "dvx: invalid format. Unknown typePrefix")
  else
    match b64DecodeGo true (parts.getD 2 []) with
    | .error _ => .error (goStr "dvx: invalid format. Data not raw base64url")
    | .ok data => .ok (parts.getD 0 [], parts.getD 1 [], data)

/-- Go `DecodeExpect`: as `Decode`, but the type prefix must match `expected`
and is dropped from the result. -/
def DecodeExpect (s : List Nat) (expected : List Nat) :
    Except (List Nat) (List Nat × List Nat) :=
  match Decode s with
  | .error e => .error e
  | .ok (v, p, d) =>
    if p ≠ expected then .error (goStr "dvx: invalid format. Incorrect typePrefix")
    else .ok (v, d)

theorem Decode_Encode (tp data : List Nat)
    (htp : tp = Encrypted ∨ tp = Signed ∨ tp = Tagged ∨ tp = TOTP)
    (hdata : ∀ b ∈ data, b < 256) :
    Decode (Encode tp data) = .ok (Version, tp, data) := by
  have h46v : (46 : Nat) ∉ Version := by decide
  have h46tp : (46 : Nat) ∉ tp := by rcases htp with rfl | rfl | rfl | rfl <;> decide
  have hsplit : goSplitN 46 3 (Encode tp data) =
      [Version, tp, b64Encode true data] := by
    rw [Encode]
    show goSplitN 46 (1 + 2) _ = _
    simp only [goSplitN, splitFirst_append 46 Version _ h46v]
    show _ :: goSplitN 46 (0 + 2) _ = _
    simp only [goSplitN, splitFirst_append 46 tp _ h46tp]
  have htpc : ¬(tp ≠ Encrypted ∧ tp ≠ Signed ∧ tp ≠ Tagged ∧ tp ≠ TOTP) := by
    rcases htp with rfl | rfl | rfl | rfl <;> simp
  simp only [Decode, hsplit, List.length_cons, List.length_nil,
    List.getD_cons_zero, List.getD_cons_succ]
  rw [if_neg (by simp), if_neg (by simp), if_neg htpc,
    b64_roundtrip true data hdata]

theorem DecodeExpect_Encode (tp data : List Nat)
    (htp : tp = Encrypted ∨ tp = Signed ∨ tp = Tagged ∨ tp = TOTP)
    (hdata : ∀ b ∈ data, b < 256) :
    DecodeExpect (Encode tp data) tp = .ok (Version, data) := by
  rw [DecodeExpect, Decode_Encode tp data htp hdata]
  simp

theorem goSplitN3_structure (sep : Nat) (s : List Nat)
    (h : (goSplitN sep 3 s).length = 3) :
    ∃ p0 p1 p2, goSplitN sep 3 s = [p0, p1, p2] ∧
      s = p0 ++ sep :: (p1 ++ sep :: p2) ∧ sep ∉ p0 ∧ sep ∉ p1 := by
  cases h0 : splitFirst sep s with
  | none =>
    exfalso
    have : goSplitN sep 3 s = [s] := by
      show goSplitN sep (1 + 2) s = _
      simp only [goSplitN, h0]
    rw [this] at h
    simp at h
  | some p =>
    obtain ⟨a, r⟩ := p
    obtain ⟨hs, hna⟩ := splitFirst_some sep s a r h0
    cases h1 : splitFirst sep r with
    | none =>
      exfalso
      have : goSplitN sep 3 s = [a, r] := by
        show goSplitN sep (1 + 2) s = _
        simp only [goSplitN, h0]
        show _ :: goSplitN sep (0 + 2) _ = _
        simp only [goSplitN, h1]
      rw [this] at h
      simp at h
    | some q =>
      obtain ⟨b, c⟩ := q
      obtain ⟨hr, hnb⟩ := splitFirst_some sep r b c h1
      refine ⟨a, b, c, ?_, ?_, hna, hnb⟩
      · show goSplitN sep (1 + 2) s = _
        simp only [goSplitN, h0]
        show _ :: goSplitN sep (0 + 2) _ = _
        simp only [goSplitN, h1]
      · rw [hs, hr]

/-- Inversion of a successful `Decode`: the input has exactly three
dot-separated segments, the version segment is `dv1`, the type prefix is one
of the four known ones, and the data segment is valid raw-URL base64. -/
theorem Decode_ok_inv (s v tp d : List Nat) (h : Decode s = .ok (v, tp, d)) :
    v = Version ∧
    (tp = Encrypted ∨ tp = Signed ∨ tp = Tagged ∨ tp = TOTP) ∧
    ∃ seg, splitAll 46 s = [Version, tp, seg] ∧ b64DecodeGo true seg = .ok d := by
  simp only [Decode] at h
  split_ifs at h with h1 h2 h3
  case _ =>
    push_neg at h1
    obtain ⟨p0, p1, p2, hparts, hs, hn0, hn1⟩ := goSplitN3_structure 46 s h1
    rw [hparts] at h h2 h3
    simp only [List.getD_cons_zero, List.getD_cons_succ] at h h2 h3
    push_neg at h2
    cases hdec : b64DecodeGo true p2 with
    | error e => rw [hdec] at h; exact absurd h (by simp)
    | ok data =>
      rw [hdec] at h
      simp only [Except.ok.injEq, Prod.mk.injEq] at h
      obtain ⟨rfl, rfl, rfl⟩ := h
      have hn2 : (46 : Nat) ∉ p2 := by
        intro hmem
        rw [b64DecodeGo_dot_err p2 hmem] at hdec
        exact absurd hdec (by simp)
      have htp4 : p1 = Encrypted ∨ p1 = Signed ∨ p1 = Tagged ∨ p1 = TOTP := by
        by_contra hall
        push_neg at hall
        exact h3 ⟨hall.1, hall.2.1, hall.2.2.1, hall.2.2.2⟩
      refine ⟨h2, htp4, p2, ?_, hdec⟩
      rw [hs, splitAll_append 46 p0 _ hn0, splitAll_append 46 p1 _ hn1,
        splitAll_not_mem 46 p2 hn2, h2]

/-- Go `Protocol.keyRingToBytes`: if the string contains a colon, try to
decode the suffix after the first colon as unpadded standard base64; on
success use the decoded bytes, otherwise (and when there is no colon) use
the bytes of the whole string. -/
def keyRingToBytes (keyRing : List Nat) : List Nat :=
  match goIndexByte keyRing 58 with
  | none => keyRing
  | some idx =>
    match b64DecodeGo false (keyRing.drop (idx + 1)) with
    | .ok buf => buf
    | .error _ => keyRing

theorem keyRingToBytes_no_colon (s : List Nat) (h : 58 ∉ s) : keyRingToBytes s = s := by
  simp [keyRingToBytes, goIndexByte_not_mem s 58 h]

theorem keyRingToBytes_colon_ok (a b d : List Nat) (ha : 58 ∉ a)
    (hb : b64DecodeGo false b = .ok d) : keyRingToBytes (a ++ 58 :: b) = d := by
  rw [keyRingToBytes, goIndexByte_append a 58 b ha]
  simp only [drop_after, hb]

theorem keyRingToBytes_colon_err (a b e : List Nat) (ha : 58 ∉ a)
    (hb : b64DecodeGo false b = .error e) :
    keyRingToBytes (a ++ 58 :: b) = a ++ 58 :: b := by
  rw [keyRingToBytes, goIndexByte_append a 58 b ha]
  simp only [drop_after, hb]

end dvx

/-! ## Word arithmetic and chunking helpers -/

/-- Rotate a 32-bit word right by `n` (0 < n < 32). -/
def rotr32 (x n : Nat) : Nat := (x / 2 ^ n + x % 2 ^ n * 2 ^ (32 - n)) % 2 ^ 32

/-- Rotate a 32-bit word left by `n` (0 < n < 32). -/
def rotl32 (x n : Nat) : Nat := (x % 2 ^ (32 - n) * 2 ^ n + x / 2 ^ (32 - n)) % 2 ^ 32

/-- Bitwise complement of a 32-bit word. -/
def not32 (x : Nat) : Nat := 2 ^ 32 - 1 - x % 2 ^ 32

/-- Rotate a 64-bit word right by `n` (0 < n < 64). -/
def rotr64 (x n : Nat) : Nat := (x / 2 ^ n + x % 2 ^ n * 2 ^ (64 - n)) % 2 ^ 64

/-- Bitwise complement of a 64-bit word. -/
def not64 (x : Nat) : Nat := 2 ^ 64 - 1 - x % 2 ^ 64

/-- Split a list into chunks of `n` elements, the final chunk possibly
shorter (fuel-driven so that it evaluates by kernel reduction). -/
def chunksAux (n : Nat) : Nat → List Nat → List (List Nat)
  | 0, _ => []
  | _, [] => []
  | f + 1, l => l.take n :: chunksAux n f (l.drop n)

/-- All `n`-byte chunks of `l`. -/
def chunks (n : Nat) (l : List Nat) : List (List Nat) := chunksAux n l.length l

/-! ## SHA-1, SHA-256, SHA-512 (Go `crypto/sha1`, `crypto/sha256`,
`crypto/sha512`, used by the TOTP engine through `crypto/hmac`) -/

/-- Working state of the SHA-2 compression functions (eight words). -/
structure Sha2State where
  a : Nat
  b : Nat
  c : Nat
  d : Nat
  e : Nat
  f : Nat
  g : Nat
  h : Nat

def sha256K : List Nat := [
  1116352408, 1899447441, 3049323471, 3921009573, 961987163,
  1508970993, 2453635748, 2870763221, 3624381080, 310598401,
  607225278, 1426881987, 1925078388, 2162078206, 2614888103,
  3248222580, 3835390401, 4022224774, 264347078, 604807628,
  770255983, 1249150122, 1555081692, 1996064986, 2554220882,
  2821834349, 2952996808, 3210313671, 3336571891, 3584528711,
  113926993, 338241895, 666307205, 773529912, 1294757372,
  1396182291, 1695183700, 1986661051, 2177026350, 2456956037,
  2730485921, 2820302411, 3259730800, 3345764771, 3516065817,
  3600352804, 4094571909, 275423344, 430227734, 506948616,
  659060556, 883997877, 958139571, 1322822218, 1537002063,
  1747873779, 1955562222, 2024104815, 2227730452, 2361852424,
  2428436474, 2756734187, 3204031479, 3329325298]

def sha512K : List Nat := [
  4794697086780616226, 8158064640168781261, 13096744586834688815,
  16840607885511220156, 4131703408338449720, 6480981068601479193,
  10538285296894168987, 12329834152419229976, 15566598209576043074,
  1334009975649890238, 2608012711638119052, 6128411473006802146,
  8268148722764581231, 9286055187155687089, 11230858885718282805,
  13951009754708518548, 16472876342353939154, 17275323862435702243,
  1135362057144423861, 2597628984639134821, 3308224258029322869,
  5365058923640841347, 6679025012923562964, 8573033837759648693,
  10970295158949994411, 12119686244451234320, 12683024718118986047,
  13788192230050041572, 14330467153632333762, 15395433587784984357,
  489312712824947311, 1452737877330783856, 2861767655752347644,
  3322285676063803686, 5560940570517711597, 5996557281743188959,
  7280758554555802590, 8532644243296465576, 9350256976987008742,
  10552545826968843579, 11727347734174303076, 12113106623233404929,
  14000437183269869457, 14369950271660146224, 15101387698204529176,
  15463397548674623760, 17586052441742319658, 1182934255886127544,
  1847814050463011016, 2177327727835720531, 2830643537854262169,
  3796741975233480872, 4115178125766777443, 5681478168544905931,
  6601373596472566643, 7507060721942968483, 8399075790359081724,
  8693463985226723168, 9568029438360202098, 10144078919501101548,
  10430055236837252648, 11840083180663258601, 13761210420658862357,
  14299343276471374635, 14566680578165727644, 15097957966210449927,
  16922976911328602910, 17689382322260857208, 500013540394364858,
  748580250866718886, 1242879168328830382, 1977374033974150939,
  2944078676154940804, 3659926193048069267, 4368137639120453308,
  4836135668995329356, 5532061633213252278, 6448918945643986474,
  6902733635092675308, 7801388544844847127]

def sha256Init : Sha2State :=
  ⟨1779033703, 3144134277, 1013904242, 2773480762,
   1359893119, 2600822924, 528734635, 1541459225⟩

def sha512Init : Sha2State :=
  ⟨7640891576956012808, 13503953896175478587, 4354685564936845355, 11912009170470909681,
   5840696475078001361, 11170449401992604703, 2270897969802886507, 6620516959819538809⟩

/-- Extend a 16-word SHA-256 schedule by `n` further words. -/
def sha256Extend : Nat → List Nat → List Nat
  | 0, ws => ws
  | n + 1, ws =>
    let len := ws.length
    let w15 := ws.getD (len - 15) 0
    let w2 := ws.getD (len - 2) 0
    let s0 := rotr32 w15 7 ^^^ rotr32 w15 18 ^^^ (w15 / 2 ^ 3)
    let s1 := rotr32 w2 17 ^^^ rotr32 w2 19 ^^^ (w2 / 2 ^ 10)
    sha256Extend n (ws ++ [(ws.getD (len - 16) 0 + s0 + ws.getD (len - 7) 0 + s1) % 2 ^ 32])

/-- One SHA-256 round; `kw` is the already-added `K[i] + W[i] mod 2^32`. -/
def sha256Round (s : Sha2State) (kw : Nat) : Sha2State :=
  let bigS1 := rotr32 s.e 6 ^^^ rotr32 s.e 11 ^^^ rotr32 s.e 25
  let ch := (s.e &&& s.f) ^^^ (not32 s.e &&& s.g)
  let t1 := (s.h + bigS1 + ch + kw) % 2 ^ 32
  let bigS0 := rotr32 s.a 2 ^^^ rotr32 s.a 13 ^^^ rotr32 s.a 22
  let mj := (s.a &&& s.b) ^^^ (s.a &&& s.c) ^^^ (s.b &&& s.c)
  let t2 := (bigS0 + mj) % 2 ^ 32
  ⟨(t1 + t2) % 2 ^ 32, s.a, s.b, s.c, (s.d + t1) % 2 ^ 32, s.e, s.f, s.g⟩

def sha256Compress (s : Sha2State) (block : List Nat) : Sha2State :=
  let ws := sha256Extend 48 ((chunks 4 block).map beNat)
  let fin := (sha256K.zip ws).foldl (fun st kw => sha256Round st ((kw.1 + kw.2) % 2 ^ 32)) s
  ⟨(s.a + fin.a) % 2 ^ 32, (s.b + fin.b) % 2 ^ 32, (s.c + fin.c) % 2 ^ 32,
   (s.d + fin.d) % 2 ^ 32, (s.e + fin.e) % 2 ^ 32, (s.f + fin.f) % 2 ^ 32,
   (s.g + fin.g) % 2 ^ 32, (s.h + fin.h) % 2 ^ 32⟩

/-- Merkle–Damgård padding for 64-byte blocks: `0x80`, zeros to 56 mod 64,
8-byte big-endian bit length. -/
def shaPad64 (msg : List Nat) : List Nat :=
  msg ++ 128 :: List.replicate ((119 - msg.length % 64) % 64) 0 ++
    beBytes 8 (msg.length * 8 % 2 ^ 64)

def sha256 (msg : List Nat) : List Nat :=
  let fin := (chunks 64 (shaPad64 msg)).foldl sha256Compress sha256Init
  beBytes 4 fin.a ++ beBytes 4 fin.b ++ beBytes 4 fin.c ++ beBytes 4 fin.d ++
  beBytes 4 fin.e ++ beBytes 4 fin.f ++ beBytes 4 fin.g ++ beBytes 4 fin.h

/-- Extend a 16-word SHA-512 schedule by `n` further words. -/
def sha512Extend : Nat → List Nat → List Nat
  | 0, ws => ws
  | n + 1, ws =>
    let len := ws.length
    let w15 := ws.getD (len - 15) 0
    let w2 := ws.getD (len - 2) 0
    let s0 := rotr64 w15 1 ^^^ rotr64 w15 8 ^^^ (w15 / 2 ^ 7)
    let s1 := rotr64 w2 19 ^^^ rotr64 w2 61 ^^^ (w2 / 2 ^ 6)
    sha512Extend n (ws ++ [(ws.getD (len - 16) 0 + s0 + ws.getD (len - 7) 0 + s1) % 2 ^ 64])

/-- One SHA-512 round; `kw` is the already-added `K[i] + W[i] mod 2^64`. -/
def sha512Round (s : Sha2State) (kw : Nat) : Sha2State :=
  let bigS1 := rotr64 s.e 14 ^^^ rotr64 s.e 18 ^^^ rotr64 s.e 41
  let ch := (s.e &&& s.f) ^^^ (not64 s.e &&& s.g)
  let t1 := (s.h + bigS1 + ch + kw) % 2 ^ 64
  let bigS0 := rotr64 s.a 28 ^^^ rotr64 s.a 34 ^^^ rotr64 s.a 39
  let mj := (s.a &&& s.b) ^^^ (s.a &&& s.c) ^^^ (s.b &&& s.c)
  let t2 := (bigS0 + mj) % 2 ^ 64
  ⟨(t1 + t2) % 2 ^ 64, s.a, s.b, s.c, (s.d + t1) % 2 ^ 64, s.e, s.f, s.g⟩

def sha512Compress (s : Sha2State) (block : List Nat) : Sha2State :=
  let ws := sha512Extend 64 ((chunks 8 block).map beNat)
  let fin := (sha512K.zip ws).foldl (fun st kw => sha512Round st ((kw.1 + kw.2) % 2 ^ 64)) s
  ⟨(s.a + fin.a) % 2 ^ 64, (s.b + fin.b) % 2 ^ 64, (s.c + fin.c) % 2 ^ 64,
   (s.d + fin.d) % 2 ^ 64, (s.e + fin.e) % 2 ^ 64, (s.f + fin.f) % 2 ^ 64,
   (s.g + fin.g) % 2 ^ 64, (s.h + fin.h) % 2 ^ 64⟩

/-- Merkle–Damgård padding for 128-byte blocks: `0x80`, zeros to 112 mod
128, 16-byte big-endian bit length. -/
def shaPad128 (msg : List Nat) : List Nat :=
  msg ++ 128 :: List.replicate ((239 - msg.length % 128) % 128) 0 ++
    beBytes 16 (msg.length * 8 % 2 ^ 128)

def sha512 (msg : List Nat) : List Nat :=
  let fin := (chunks 128 (shaPad128 msg)).foldl sha512Compress sha512Init
  beBytes 8 fin.a ++ beBytes 8 fin.b ++ beBytes 8 fin.c ++ beBytes 8 fin.d ++
  beBytes 8 fin.e ++ beBytes 8 fin.f ++ beBytes 8 fin.g ++ beBytes 8 fin.h

/-- Working state of the SHA-1 compression function (five words). -/
structure Sha1State where
  a : Nat
  b : Nat
  c : Nat
  d : Nat
  e : Nat

def sha1Init : Sha1State := ⟨0x67452301, 0xEFCDAB89, 0x98BADCFE, 0x10325476, 0xC3D2E1F0⟩

/-- Extend a 16-word SHA-1 schedule by `n` further words. -/
def sha1Extend : Nat → List Nat → List Nat
  | 0, ws => ws
  | n + 1, ws =>
    let len := ws.length
    let x := ws.getD (len - 3) 0 ^^^ ws.getD (len - 8) 0 ^^^
             ws.getD (len - 14) 0 ^^^ ws.getD (len - 16) 0
    sha1Extend n (ws ++ [rotl32 x 1])

def sha1F (i b c d : Nat) : Nat :=
  if i < 20 then (b &&& c) ^^^ (not32 b &&& d)
  else if i < 40 then b ^^^ c ^^^ d
  else if i < 60 then (b &&& c) ^^^ (b &&& d) ^^^ (c &&& d)
  else b ^^^ c ^^^ d

def sha1K (i : Nat) : Nat :=
  if i < 20 then 0x5A827999
  else if i < 40 then 0x6ED9EBA1
  else if i < 60 then 0x8F1BBCDC
  else 0xCA62C1D6

def sha1Round (s : Sha1State) (iw : Nat × Nat) : Sha1State :=
  let temp := (rotl32 s.a 5 + sha1F iw.1 s.b s.c s.d + s.e + sha1K iw.1 + iw.2) % 2 ^ 32
  ⟨temp, s.a, rotl32 s.b 30, s.c, s.d⟩

def sha1Compress (s : Sha1State) (block : List Nat) : Sha1State :=
  let ws := sha1Extend 64 ((chunks 4 block).map beNat)
  let fin := ((List.range 80).zip ws).foldl sha1Round s
  ⟨(s.a + fin.a) % 2 ^ 32, (s.b + fin.b) % 2 ^ 32, (s.c + fin.c) % 2 ^ 32,
   (s.d + fin.d) % 2 ^ 32, (s.e + fin.e) % 2 ^ 32⟩

def sha1 (msg : List Nat) : List Nat :=
  let fin := (chunks 64 (shaPad64 msg)).foldl sha1Compress sha1Init
  beBytes 4 fin.a ++ beBytes 4 fin.b ++ beBytes 4 fin.c ++
  beBytes 4 fin.d ++ beBytes 4 fin.e

theorem sha1_length (msg : List Nat) : (sha1 msg).length = 20 := by
  simp [sha1, beBytes_length]

theorem sha256_length (msg : List Nat) : (sha256 msg).length = 32 := by
  simp [sha256, beBytes_length]

theorem sha512_length (msg : List Nat) : (sha512 msg).length = 64 := by
  simp [sha512, beBytes_length]

/-! ## HMAC (Go `crypto/hmac`) -/

/-- HMAC over an arbitrary hash with the given block size: keys longer than
a block are hashed first, then zero-padded to the block size and combined
with the 0x36/0x5c pads. -/
def hmac (hash : List Nat → List Nat) (blockSize : Nat) (key msg : List Nat) : List Nat :=
  let k0 := if blockSize < key.length then hash key else key
  let kp := k0 ++ List.replicate (blockSize - k0.length) 0
  hash ((kp.map (· ^^^ 92)) ++ hash ((kp.map (· ^^^ 54)) ++ msg))

def hmacSha1 (key msg : List Nat) : List Nat := hmac sha1 64 key msg

def hmacSha256 (key msg : List Nat) : List Nat := hmac sha256 64 key msg

def hmacSha512 (key msg : List Nat) : List Nat := hmac sha512 128 key msg

theorem hmacSha1_length (key msg : List Nat) : (hmacSha1 key msg).length = 20 := by
  rw [hmacSha1, hmac]
  exact sha1_length _

theorem hmacSha256_length (key msg : List Nat) : (hmacSha256 key msg).length = 32 := by
  rw [hmacSha256, hmac]
  exact sha256_length _

theorem hmacSha512_length (key msg : List Nat) : (hmacSha512 key msg).length = 64 := by
  rw [hmacSha512, hmac]
  exact sha512_length _

/-! ## TOTP engine (`utils/dvx/totp/totp.go`)

Go `int` fields (`Digits`, `Period`) are modelled as `Nat`: the repository
only ever constructs nonnegative values, and both guards reject everything
except `30` and `{6, 8}`, so no reachable behaviour is lost. `time.Now`
is modelled by an explicit `now` parameter (Unix seconds). -/

namespace totp

/-- The `totp.TOTP` record. -/
structure TOTP where
  Secret : List Nat
  Algorithm : List Nat
  Digits : Nat
  Period : Nat
  Issuer : List Nat
  AccountName : List Nat

/-- The Go `for len(code) != digits` zero-padding loop, fuel-driven. The Go
loop terminates because the code never has more than `digits` characters;
`fuel = digits` suffices for exactly those runs. -/
def padCode : Nat → Nat → List Nat → List Nat
  | 0, _, code => code
  | fuel + 1, digits, code =>
    if code.length ≠ digits then padCode fuel digits (48 :: code) else code

/-- Go `generateOTP`: select the HMAC by algorithm name, MAC the 8-byte
big-endian counter, dynamically truncate (`offset = last byte & 0xF`, take
4 bytes, clear the high bit of the first: here `% 16` and `% 128`),
interpret big-endian, reduce mod `10^digits` and left-pad with zeros. -/
def generateOTP (secret algorithm : List Nat) (digits : Nat) (counter : Nat) :
    Except (List Nat) (List Nat) :=
  if algorithm ≠ goStr "SHA1" ∧ algorithm ≠ goStr "SHA256" ∧ algorithm ≠ goStr "SHA512" then
    .error (goStr "dvx/totp: invalid algorithm selection")
  else
    let h := (if algorithm = goStr "SHA1" then hmacSha1 secret
              else if algorithm = goStr "SHA256" then hmacSha256 secret
              else hmacSha512 secret) (beBytes 8 (counter % 2 ^ 64))
    let offset := h.getD (h.length - 1) 0 % 16
    let h4 := (h.drop offset).take 4
    let h4m := h4.set 0 (h4.getD 0 0 % 128)
    let decimal := beNat h4m
    if digits ≠ 6 ∧ digits ≠ 8 then .error (goStr "dvx/totp: invalid digits selection")
    else .ok (padCode digits digits (toDec (decimal % 10 ^ digits)))

/-- Go `TOTP.Generate`: guard the secret and period, then `generateOTP`
with `counter = unix_seconds / period`. -/
def Generate (t : TOTP) (now : Nat) : Except (List Nat) (List Nat) :=
  if t.Secret = [] then .error (goStr "dvx/totp: secret is emtpy")
  else if t.Period ≠ 30 then .error (goStr "dvx/totp: invalid period selection")
  else generateOTP t.Secret t.Algorithm t.Digits (now / t.Period)

/-- Go `TOTP.Verify`: generate the current code; on a generation error
return `(false, nil)`, otherwise compare in constant time
(`subtle.ConstantTimeCompare` is 1 exactly on byte-equal inputs). -/
def Verify (t : TOTP) (code : List Nat) (now : Nat) : Except (List Nat) Bool :=
  match Generate t now with
  | .error _ => .ok false
  | .ok expected => .ok (expected == code)

/-- Standard base32 alphabet lookup (`A-Z2-7`). -/
def b32EncChar (v : Nat) : Nat := if v < 26 then 65 + v else 50 + (v - 26)

/-- Unpadded standard base32 encoding (Go
`base32.StdEncoding.WithPadding(NoPadding)`); the Go shift/mask pipeline is
rendered as 40-bit group arithmetic. -/
def b32Encode : List Nat → List Nat
  | [] => []
  | [b1] =>
    [b32EncChar (b1 * 4294967296 / 2 ^ 35 % 32),
     b32EncChar (b1 * 4294967296 / 2 ^ 30 % 32)]
  | [b1, b2] =>
    [b32EncChar ((b1 * 4294967296 + b2 * 16777216) / 2 ^ 35 % 32),
     b32EncChar ((b1 * 4294967296 + b2 * 16777216) / 2 ^ 30 % 32),
     b32EncChar ((b1 * 4294967296 + b2 * 16777216) / 2 ^ 25 % 32),
     b32EncChar ((b1 * 4294967296 + b2 * 16777216) / 2 ^ 20 % 32)]
  | [b1, b2, b3] =>
    [b32EncChar ((b1 * 4294967296 + b2 * 16777216 + b3 * 65536) / 2 ^ 35 % 32),
     b32EncChar ((b1 * 4294967296 + b2 * 16777216 + b3 * 65536) / 2 ^ 30 % 32),
     b32EncChar ((b1 * 4294967296 + b2 * 16777216 + b3 * 65536) / 2 ^ 25 % 32),
     b32EncChar ((b1 * 4294967296 + b2 * 16777216 + b3 * 65536) / 2 ^ 20 % 32),
     b32EncChar ((b1 * 4294967296 + b2 * 16777216 + b3 * 65536) / 2 ^ 15 % 32)]
  | [b1, b2, b3, b4] =>
    [b32EncChar ((b1 * 4294967296 + b2 * 16777216 + b3 * 65536 + b4 * 256) / 2 ^ 35 % 32),
     b32EncChar ((b1 * 4294967296 + b2 * 16777216 + b3 * 65536 + b4 * 256) / 2 ^ 30 % 32),
     b32EncChar ((b1 * 4294967296 + b2 * 16777216 + b3 * 65536 + b4 * 256) / 2 ^ 25 % 32),
     b32EncChar ((b1 * 4294967296 + b2 * 16777216 + b3 * 65536 + b4 * 256) / 2 ^ 20 % 32),
     b32EncChar ((b1 * 4294967296 + b2 * 16777216 + b3 * 65536 + b4 * 256) / 2 ^ 15 % 32),
     b32EncChar ((b1 * 4294967296 + b2 * 16777216 + b3 * 65536 + b4 * 256) / 2 ^ 10 % 32),
     b32EncChar ((b1 * 4294967296 + b2 * 16777216 + b3 * 65536 + b4 * 256) / 2 ^ 5 % 32)]
  | b1 :: b2 :: b3 :: b4 :: b5 :: rest =>
    b32EncChar ((b1 * 4294967296 + b2 * 16777216 + b3 * 65536 + b4 * 256 + b5) / 2 ^ 35 % 32) ::
    b32EncChar ((b1 * 4294967296 + b2 * 16777216 + b3 * 65536 + b4 * 256 + b5) / 2 ^ 30 % 32) ::
    b32EncChar ((b1 * 4294967296 + b2 * 16777216 + b3 * 65536 + b4 * 256 + b5) / 2 ^ 25 % 32) ::
    b32EncChar ((b1 * 4294967296 + b2 * 16777216 + b3 * 65536 + b4 * 256 + b5) / 2 ^ 20 % 32) ::
    b32EncChar ((b1 * 4294967296 + b2 * 16777216 + b3 * 65536 + b4 * 256 + b5) / 2 ^ 15 % 32) ::
    b32EncChar ((b1 * 4294967296 + b2 * 16777216 + b3 * 65536 + b4 * 256 + b5) / 2 ^ 10 % 32) ::
    b32EncChar ((b1 * 4294967296 + b2 * 16777216 + b3 * 65536 + b4 * 256 + b5) / 2 ^ 5 % 32) ::
    b32EncChar ((b1 * 4294967296 + b2 * 16777216 + b3 * 65536 + b4 * 256 + b5) % 32) ::
    b32Encode rest

/-- Alphanumeric ASCII test of Go `net/url.shouldEscape`. -/
def isAlphaNum (c : Nat) : Bool :=
  (65 ≤ c && c ≤ 90) || (97 ≤ c && c ≤ 122) || (48 ≤ c && c ≤ 57)

/-- Go `net/url.shouldEscape(c, encodePathSegment)`. -/
def shouldEscapePathSeg (c : Nat) : Bool :=
  if isAlphaNum c then false
  else if c = 45 || c = 95 || c = 46 || c = 126 then false
  else if c = 36 || c = 38 || c = 43 || c = 44 || c = 47 || c = 58 || c = 59 ||
          c = 61 || c = 63 || c = 64 then
    (c = 47 || c = 59 || c = 44 || c = 63)
  else true

/-- Upper-case hex digit of a nibble. -/
def hexUpperDigit (v : Nat) : Nat := if v < 10 then 48 + v else 55 + v

/-- Go `url.PathEscape` on bytes: escape as `%XX` with upper-case hex. -/
def pathEscape (s : List Nat) : List Nat :=
  s.flatMap (fun c =>
    if shouldEscapePathSeg c then [37, hexUpperDigit (c / 16), hexUpperDigit (c % 16)]
    else [c])

/-- Go `TOTP.URI`: the Google-Authenticator key URI built by the string
builder in `totp.go`. -/
def URI (t : TOTP) : List Nat :=
  goStr "otpauth://totp/" ++ pathEscape t.Issuer ++ 58 :: pathEscape t.AccountName ++
  goStr "?secret=" ++ b32Encode t.Secret ++
  goStr "&issuer=" ++ pathEscape t.Issuer ++
  goStr "&algorithm=" ++ t.Algorithm ++
  goStr "&digits=" ++ toDec t.Digits ++
  goStr "&period=" ++ toDec t.Period

/-- The RFC 4226 reference computation exactly as the specification words
it: `h = HMAC-hash(secret, 8-byte big-endian counter)`,
`offset = last byte & 0x0F`, the 4 bytes at `offset` with the high bit of
the first cleared read as a big-endian uint32, reduced mod `10^digits`,
decimal, left-padded with zeros to `digits` characters. -/
def rfc4226Reference (secret algorithm : List Nat) (digits : Nat) (counter : Nat) :
    List Nat :=
  let h := if algorithm = goStr "SHA1" then hmacSha1 secret (beBytes 8 (counter % 2 ^ 64))
           else if algorithm = goStr "SHA256" then hmacSha256 secret (beBytes 8 (counter % 2 ^ 64))
           else hmacSha512 secret (beBytes 8 (counter % 2 ^ 64))
  let offset := h.getD (h.length - 1) 0 % 16
  let v := h.getD offset 0 % 128 * 2 ^ 24 + h.getD (offset + 1) 0 * 2 ^ 16 +
           h.getD (offset + 2) 0 * 2 ^ 8 + h.getD (offset + 3) 0
  List.replicate (digits - (toDec (v % 10 ^ digits)).length) 48 ++ toDec (v % 10 ^ digits)

end totp

theorem padCode_eq :
    ∀ (fuel digits : Nat) (code : List Nat), code.length ≤ digits →
      digits - code.length ≤ fuel →
      totp.padCode fuel digits code = List.replicate (digits - code.length) 48 ++ code := by
  intro fuel
  induction fuel with
  | zero =>
    intro digits code hle hf
    have : digits = code.length := by omega
    simp [totp.padCode, this]
  | succ k ih =>
    intro digits code hle hf
    by_cases heq : code.length = digits
    · simp [totp.padCode, heq]
    · have hlt : code.length < digits := by omega
      rw [totp.padCode, if_pos (by omega)]
      rw [ih digits (48 :: code) (by simp; omega) (by simp; omega)]
      have hrep : digits - code.length = (digits - (48 :: code).length) + 1 := by
        simp
        omega
      rw [hrep, List.replicate_succ']
      simp

/-! ## BLAKE2b (`golang.org/x/crypto/blake2b`, RFC 7693), the MAC primitive
of the dv1 suite. Keyed mode prepends the zero-padded key as first block;
the parameter word `0x0101kknn` is folded into `h[0]`. -/

def blake2bIV : List Nat := [
  7640891576956012808, 13503953896175478587, 4354685564936845355, 11912009170470909681,
  5840696475078001361, 11170449401992604703, 2270897969802886507, 6620516959819538809]

def blake2bSigma : List (List Nat) := [
  [0, 1, 2, 3, 4, 5, 6, 7, 8, 9, 10, 11, 12, 13, 14, 15],
  [14, 10, 4, 8, 9, 15, 13, 6, 1, 12, 0, 2, 11, 7, 5, 3],
  [11, 8, 12, 0, 5, 2, 15, 13, 10, 14, 3, 6, 7, 1, 9, 4],
  [7, 9, 3, 1, 13, 12, 11, 14, 2, 6, 5, 10, 4, 0, 15, 8],
  [9, 0, 5, 7, 2, 4, 10, 15, 14, 1, 11, 12, 6, 8, 3, 13],
  [2, 12, 6, 10, 0, 11, 8, 3, 4, 13, 7, 5, 15, 14, 1, 9],
  [12, 5, 1, 15, 14, 13, 4, 10, 0, 7, 6, 3, 9, 2, 8, 11],
  [13, 11, 7, 14, 12, 1, 3, 9, 5, 0, 15, 4, 8, 6, 2, 10],
  [6, 15, 14, 9, 11, 3, 0, 8, 12, 2, 13, 7, 1, 4, 10, 5],
  [10, 2, 8, 4, 7, 6, 1, 5, 15, 11, 9, 14, 3, 12, 13, 0]]

/-- The BLAKE2b mixing function G on the 16-word working vector. -/
def blake2bG (v : List Nat) (a b c d x y : Nat) : List Nat :=
  let va := (v.getD a 0 + v.getD b 0 + x) % 2 ^ 64
  let vd := rotr64 (v.getD d 0 ^^^ va) 32
  let vc := (v.getD c 0 + vd) % 2 ^ 64
  let vb := rotr64 (v.getD b 0 ^^^ vc) 24
  let va2 := (va + vb + y) % 2 ^ 64
  let vd2 := rotr64 (vd ^^^ va2) 16
  let vc2 := (vc + vd2) % 2 ^ 64
  let vb2 := rotr64 (vb ^^^ vc2) 63
  (((v.set a va2).set b vb2).set c vc2).set d vd2

/-- One of the twelve BLAKE2b rounds, using schedule row `round % 10`. -/
def blake2bRound (m : List Nat) (v : List Nat) (round : Nat) : List Nat :=
  let s := blake2bSigma.getD (round % 10) []
  let v1 := blake2bG v 0 4 8 12 (m.getD (s.getD 0 0) 0) (m.getD (s.getD 1 0) 0)
  let v2 := blake2bG v1 1 5 9 13 (m.getD (s.getD 2 0) 0) (m.getD (s.getD 3 0) 0)
  let v3 := blake2bG v2 2 6 10 14 (m.getD (s.getD 4 0) 0) (m.getD (s.getD 5 0) 0)
  let v4 := blake2bG v3 3 7 11 15 (m.getD (s.getD 6 0) 0) (m.getD (s.getD 7 0) 0)
  let v5 := blake2bG v4 0 5 10 15 (m.getD (s.getD 8 0) 0) (m.getD (s.getD 9 0) 0)
  let v6 := blake2bG v5 1 6 11 12 (m.getD (s.getD 10 0) 0) (m.getD (s.getD 11 0) 0)
  let v7 := blake2bG v6 2 7 8 13 (m.getD (s.getD 12 0) 0) (m.getD (s.getD 13 0) 0)
  blake2bG v7 3 4 9 14 (m.getD (s.getD 14 0) 0) (m.getD (s.getD 15 0) 0)

/-- Zero-pad a (≤ 128 byte) block to the full 128 bytes. -/
def blake2bPadBlock (b : List Nat) : List Nat := b ++ List.replicate (128 - b.length) 0

/-- The BLAKE2b compression function F: `t` is the byte counter, `last`
marks the final block. -/
def blake2bF (h : List Nat) (block : List Nat) (t : Nat) (last : Bool) : List Nat :=
  let m := (chunks 8 block).map leNat
  let v0 := h ++ blake2bIV
  let v1 := v0.set 12 (v0.getD 12 0 ^^^ (t % 2 ^ 64))
  let v2 := v1.set 13 (v1.getD 13 0 ^^^ (t / 2 ^ 64 % 2 ^ 64))
  let v3 := if last then v2.set 14 (not64 (v2.getD 14 0)) else v2
  let vf := (List.range 12).foldl (blake2bRound m) v3
  (List.range 8).map (fun i => h.getD i 0 ^^^ vf.getD i 0 ^^^ vf.getD (i + 8) 0)

/-- Feed the block sequence through F, tracking the byte counter; the final
block is zero-padded and flagged. -/
def blake2bGo (h : List Nat) (consumed : Nat) : List (List Nat) → List Nat
  | [] => h
  | [b] => blake2bF h (blake2bPadBlock b) (consumed + b.length) true
  | b :: rest => blake2bGo (blake2bF h b (consumed + 128) false) (consumed + 128) rest

/-- BLAKE2b with a `digestLen`-byte digest (≤ 64) and optional key (≤ 64
bytes; `blake2b.New256` / `New512` pass the MAC key here). -/
def blake2b (digestLen : Nat) (key msg : List Nat) : List Nat :=
  let h0 := blake2bIV.set 0
    (blake2bIV.getD 0 0 ^^^ 0x01010000 ^^^ key.length * 256 ^^^ digestLen)
  let blocks := (if key = [] then [] else [blake2bPadBlock key]) ++ chunks 128 msg
  let blocks2 := if blocks = [] then [[]] else blocks
  ((blake2bGo h0 0 blocks2).flatMap (leBytes 8)).take digestLen

theorem blake2bF_length (h block : List Nat) (t : Nat) (last : Bool) :
    (blake2bF h block t last).length = 8 := by
  simp [blake2bF]

theorem blake2bGo_length :
    ∀ (blocks : List (List Nat)) (h : List Nat) (c : Nat), h.length = 8 →
      (blake2bGo h c blocks).length = 8
  | [], _, _, hh => hh
  | [_], _, _, _ => blake2bF_length _ _ _ _
  | _ :: b2 :: rest, _, _, _ =>
    blake2bGo_length (b2 :: rest) _ _ (blake2bF_length _ _ _ _)

theorem flatMap_leBytes8_length (l : List Nat) :
    (l.flatMap (leBytes 8)).length = 8 * l.length := by
  induction l with
  | nil => rfl
  | cons x rest ih =>
    simp [List.flatMap_cons, ih, leBytes_length]
    omega

theorem blake2b_len (digestLen : Nat) (key msg : List Nat) (hd : digestLen ≤ 64) :
    (blake2b digestLen key msg).length = digestLen := by
  rw [blake2b]
  rw [List.length_take, flatMap_leBytes8_length, blake2bGo_length _ _ _ (by simp [blake2bIV])]
  omega

theorem take4_drop (l : List Nat) (n : Nat) (h : n + 4 ≤ l.length) :
    (l.drop n).take 4 =
      [l.getD n 0, l.getD (n + 1) 0, l.getD (n + 2) 0, l.getD (n + 3) 0] := by
  have h0 : n < l.length := by omega
  have h1 : n + 1 < l.length := by omega
  have h2 : n + 2 < l.length := by omega
  have h3 : n + 3 < l.length := by omega
  rw [List.drop_eq_getElem_cons h0, List.drop_eq_getElem_cons h1,
    List.drop_eq_getElem_cons h2, List.drop_eq_getElem_cons h3,
    List.getD_eq_getElem l 0 h0, List.getD_eq_getElem l 0 h1,
    List.getD_eq_getElem l 0 h2, List.getD_eq_getElem l 0 h3]
  rfl

/-! ## XChaCha20-Poly1305 (`golang.org/x/crypto/chacha20poly1305.NewX`),
the AEAD of the dv1 suite (RFC 8439 construction with the HChaCha20 key
derivation). -/

def chachaConst : List Nat := [0x61707865, 0x3320646e, 0x79622d32, 0x6b206574]

/-- The ChaCha quarter round acting on the 16-word working vector. -/
def chachaQR (v : List Nat) (a b c d : Nat) : List Nat :=
  let va := (v.getD a 0 + v.getD b 0) % 2 ^ 32
  let vd := rotl32 (v.getD d 0 ^^^ va) 16
  let vc := (v.getD c 0 + vd) % 2 ^ 32
  let vb := rotl32 (v.getD b 0 ^^^ vc) 12
  let va2 := (va + vb) % 2 ^ 32
  let vd2 := rotl32 (vd ^^^ va2) 8
  let vc2 := (vc + vd2) % 2 ^ 32
  let vb2 := rotl32 (vb ^^^ vc2) 7
  (((v.set a va2).set b vb2).set c vc2).set d vd2

def chachaDoubleRound (v : List Nat) : List Nat :=
  let v1 := chachaQR v 0 4 8 12
  let v2 := chachaQR v1 1 5 9 13
  let v3 := chachaQR v2 2 6 10 14
  let v4 := chachaQR v3 3 7 11 15
  let v5 := chachaQR v4 0 5 10 15
  let v6 := chachaQR v5 1 6 11 12
  let v7 := chachaQR v6 2 7 8 13
  chachaQR v7 3 4 9 14

/-- The twenty ChaCha rounds (ten double rounds). -/
def chachaRounds (v : List Nat) : List Nat :=
  (List.range 10).foldl (fun s _ => chachaDoubleRound s) v

/-- Little-endian 32-bit words of a byte string. -/
def leWords4 (bytes : List Nat) : List Nat := (chunks 4 bytes).map leNat

/-- One 64-byte ChaCha20 keystream block for a 12-byte nonce. -/
def chachaBlock (key : List Nat) (counter : Nat) (nonce : List Nat) : List Nat :=
  let init := chachaConst ++ leWords4 key ++ [counter % 2 ^ 32] ++ leWords4 nonce
  let fin := chachaRounds init
  ((List.range 16).map (fun i => (init.getD i 0 + fin.getD i 0) % 2 ^ 32)).flatMap
    (leBytes 4)

/-- HChaCha20: derive a 32-byte subkey from a key and a 16-byte nonce
(words 0-3 and 12-15 after the rounds, without the final addition). -/
def hchacha (key nonce16 : List Nat) : List Nat :=
  let fin := chachaRounds (chachaConst ++ leWords4 key ++ leWords4 nonce16)
  (fin.take 4 ++ (fin.drop 12).take 4).flatMap (leBytes 4)

/-- Byte `i` of the ChaCha20 payload keystream (blocks start at counter 1;
block 0 is reserved for the Poly1305 key). -/
def chachaKsByte (key nonce : List Nat) (i : Nat) : Nat :=
  (chachaBlock key (1 + i / 64) nonce).getD (i % 64) 0

def chachaKeystream (key nonce : List Nat) (n : Nat) : List Nat :=
  (List.range n).map (chachaKsByte key nonce)

/-- Poly1305 over the one-time key `key32`: accumulate 16-byte blocks with
an appended 0x01 byte modulo `2^130 - 5`, then add `s` modulo `2^128`. -/
def poly1305 (key32 msg : List Nat) : List Nat :=
  let r := leNat (key32.take 16) &&& 0x0ffffffc0ffffffc0ffffffc0fffffff
  let s := leNat (key32.drop 16)
  let acc := (chunks 16 msg).foldl
    (fun acc blk => (acc + leNat (blk ++ [1])) * r % (2 ^ 130 - 5)) 0
  leBytes 16 ((acc + s) % 2 ^ 128)

/-- Zero padding of a length to the next 16-byte boundary. -/
def pad16len (n : Nat) : Nat := (16 - n % 16) % 16

/-- The RFC 8439 MAC input: `ad ‖ pad ‖ ct ‖ pad ‖ len(ad) ‖ len(ct)`. -/
def poly1305MacData (ad ct : List Nat) : List Nat :=
  ad ++ List.replicate (pad16len ad.length) 0 ++
  ct ++ List.replicate (pad16len ct.length) 0 ++
  leBytes 8 (ad.length % 2 ^ 64) ++ leBytes 8 (ct.length % 2 ^ 64)

/-- The ChaCha20 stream cipher: XOR with the payload keystream. -/
def cc20p1305Ct (key nonce data : List Nat) : List Nat :=
  List.zipWith (fun a b => a ^^^ b) data (chachaKeystream key nonce data.length)

/-- The Poly1305 tag over associated data and ciphertext, keyed by the
first 32 bytes of keystream block 0. -/
def cc20p1305Tag (key nonce ad ct : List Nat) : List Nat :=
  poly1305 ((chachaBlock key 0 nonce).take 32) (poly1305MacData ad ct)

/-- ChaCha20-Poly1305 `Seal`: ciphertext followed by the 16-byte tag. -/
def cc20p1305Seal (key nonce ad data : List Nat) : List Nat :=
  let ct := cc20p1305Ct key nonce data
  ct ++ cc20p1305Tag key nonce ad ct

/-- ChaCha20-Poly1305 `Open`: split off the trailing 16-byte tag,
recompute it over the associated data and ciphertext (the comparison is
constant-time in the library), and decrypt on success. -/
def cc20p1305Open (key nonce ad sealed : List Nat) : Except (List Nat) (List Nat) :=
  if sealed.length < 16 then
    .error (goStr "chacha20poly1305: message authentication failed")
  else
    let ct := sealed.take (sealed.length - 16)
    let tag := sealed.drop (sealed.length - 16)
    if cc20p1305Tag key nonce ad ct = tag then .ok (cc20p1305Ct key nonce ct)
    else .error (goStr "chacha20poly1305: message authentication failed")

/-- XChaCha20: HChaCha20 subkey from the first 16 nonce bytes. -/
def xchachaSubkey (key nonce24 : List Nat) : List Nat := hchacha key (nonce24.take 16)

/-- XChaCha20: 12-byte nonce, four zero bytes then the last 8 nonce bytes. -/
def xchachaNonce (nonce24 : List Nat) : List Nat := [0, 0, 0, 0] ++ nonce24.drop 16

def xcc20p1305Seal (key nonce24 ad data : List Nat) : List Nat :=
  cc20p1305Seal (xchachaSubkey key nonce24) (xchachaNonce nonce24) ad data

def xcc20p1305Open (key nonce24 ad sealed : List Nat) : Except (List Nat) (List Nat) :=
  cc20p1305Open (xchachaSubkey key nonce24) (xchachaNonce nonce24) ad sealed

theorem chachaKeystream_length (key nonce : List Nat) (n : Nat) :
    (chachaKeystream key nonce n).length = n := by
  simp [chachaKeystream]

theorem cc20p1305Ct_length (key nonce data : List Nat) :
    (cc20p1305Ct key nonce data).length = data.length := by
  rw [cc20p1305Ct, List.length_zipWith, chachaKeystream_length]
  omega

theorem poly1305_length (key32 msg : List Nat) : (poly1305 key32 msg).length = 16 := by
  simp [poly1305, leBytes_length]

theorem cc20p1305Tag_length (key nonce ad ct : List Nat) :
    (cc20p1305Tag key nonce ad ct).length = 16 := poly1305_length _ _

theorem zipXor_cancel :
    ∀ (d ks : List Nat), d.length ≤ ks.length →
      List.zipWith (fun a b => a ^^^ b) (List.zipWith (fun a b => a ^^^ b) d ks) ks = d
  | [], _, _ => by simp
  | a :: d2, [], h => by simp at h
  | a :: d2, k :: ks2, h => by
    simp only [List.zipWith_cons_cons]
    rw [zipXor_cancel d2 ks2 (by simpa using h)]
    congr 1
    rw [Nat.xor_assoc, Nat.xor_self, Nat.xor_zero]

theorem cc20p1305Ct_cancel (key nonce data : List Nat) :
    cc20p1305Ct key nonce (cc20p1305Ct key nonce data) = data := by
  conv_lhs => rw [cc20p1305Ct, cc20p1305Ct_length]
  exact zipXor_cancel data _ (by rw [chachaKeystream_length])

/-- Opening a sealed blob with the same key, nonce and associated data
recovers the plaintext. -/
theorem cc20p1305Open_Seal (key nonce ad data : List Nat) :
    cc20p1305Open key nonce ad (cc20p1305Seal key nonce ad data) = .ok data := by
  rw [cc20p1305Seal, cc20p1305Open]
  have hct := cc20p1305Ct_length key nonce data
  have htag := cc20p1305Tag_length key nonce ad (cc20p1305Ct key nonce data)
  have hlen : (cc20p1305Ct key nonce data ++
      cc20p1305Tag key nonce ad (cc20p1305Ct key nonce data)).length =
      (cc20p1305Ct key nonce data).length + 16 := by
    rw [List.length_append, htag]
  rw [if_neg (by omega)]
  have hsub : (cc20p1305Ct key nonce data ++
      cc20p1305Tag key nonce ad (cc20p1305Ct key nonce data)).length - 16 =
      (cc20p1305Ct key nonce data).length := by omega
  rw [hsub, List.take_left, List.drop_left, if_pos rfl, cc20p1305Ct_cancel]

theorem xcc20p1305Open_Seal (key nonce24 ad data : List Nat) :
    xcc20p1305Open key nonce24 ad (xcc20p1305Seal key nonce24 ad data) = .ok data :=
  cc20p1305Open_Seal _ _ _ _

/-! ## DV1 MAC primitives, the software KeyPool and the Protocol TOTP
operations (`dv1.go`, part of `dvx.go`, `protocol` file) -/

namespace dvx

namespace DV1

/-- Go `DV1.MAC256`: keyed BLAKE2b-256; the key must be exactly
`blake2b.Size = 64` bytes. -/
def MAC256 (key message : List Nat) : Except (List Nat) (List Nat) :=
  if key.length ≠ 64 then .error (goStr "dv1: mac key must be 64 bytes long")
  else .ok (blake2b 32 key message)

/-- Go `DV1.MAC512`: keyed BLAKE2b-512; the key must be exactly
`blake2b.Size = 64` bytes. -/
def MAC512 (key message : List Nat) : Except (List Nat) (List Nat) :=
  if key.length ≠ 64 then .error (goStr "dv1: mac key must be 64 bytes long")
  else .ok (blake2b 64 key message)

/-- Go `DV1.Encrypt` with the 24-byte CSPRNG nonce passed explicitly:
refuse non-32-byte keys, then `nonce ‖ Seal(data, ad = "dv1" ‖ nonce)`. -/
def Encrypt (key data nonce : List Nat) : Except (List Nat) (List Nat) :=
  if key.length ≠ 32 then .error (goStr "dv1: key must be 32 bytes long")
  else .ok (nonce ++ xcc20p1305Seal key nonce (Version ++ nonce) data)

/-- Go `DV1.Decrypt`: refuse non-32-byte keys and blobs shorter than the
24-byte nonce, then open with the reconstructed `"dv1" ‖ nonce` associated
data. -/
def Decrypt (key cipher : List Nat) : Except (List Nat) (List Nat) :=
  if key.length ≠ 32 then .error (goStr "dv1: key must be 32 bytse long")
  else if cipher.length < 24 then
    .error (goStr "dv1: cipher shorter than needed for nonce")
  else
    match xcc20p1305Open key (cipher.take 24) (Version ++ cipher.take 24)
        (cipher.drop 24) with
    | .error _ => .error (goStr "dv1: open failed")
    | .ok data => .ok data

end DV1

theorem DV1_Decrypt_Encrypt (key data nonce : List Nat)
    (hkey : key.length = 32) (hnonce : nonce.length = 24) :
    DV1.Decrypt key (nonce ++ xcc20p1305Seal key nonce (Version ++ nonce) data) =
      .ok data := by
  rw [DV1.Decrypt, if_neg (by omega)]
  have htake : (nonce ++ xcc20p1305Seal key nonce (Version ++ nonce) data).take 24 =
      nonce := by
    rw [← hnonce, List.take_left]
  have hdrop : (nonce ++ xcc20p1305Seal key nonce (Version ++ nonce) data).drop 24 =
      xcc20p1305Seal key nonce (Version ++ nonce) data := by
    rw [← hnonce, List.drop_left]
  rw [if_neg (by rw [List.length_append]; omega), htake, hdrop,
    xcc20p1305Open_Seal]

/-- The `KeyPool` capability set used by the Protocol (the `Close` part is
modelled separately, on the memory state, for the zeroization claim). -/
structure KeyPool where
  KDF32 : List Nat → Except (List Nat) (List Nat)
  KDF64 : List Nat → Except (List Nat) (List Nat)

/-- Go `WrapDVXAsKeyPool(DV1{}, rootKey, log)`: the software pool, whose
KDFs are the DV1 MACs keyed with the held root key (the audit log call has
no effect on the result). -/
def WrapDVXAsKeyPool (rootKey : List Nat) : KeyPool :=
  ⟨fun keyRing => DV1.MAC256 rootKey keyRing, fun keyRing => DV1.MAC512 rootKey keyRing⟩

/-- Memory-level model of the `dvxWrapper` struct for the close/zeroization
claim: `rootKeyBuf` is the backing array of the `rootKey` slice,
`rootKeyNil` records whether the struct field has been set to `nil`. -/
structure DvxWrapperMem where
  rootKeyBuf : List Nat
  rootKeyNil : Bool

/-- Go `dvxWrapper.Close`: executes only `d.rootKey = nil`, which replaces
the slice header in the struct; nothing is written into the backing array
before it is released to the garbage collector. -/
def dvxWrapperClose (st : DvxWrapperMem) : DvxWrapperMem :=
  { st with rootKeyNil := true }

/-- The Protocol, holding the `"dv1"` entry of its `keys` map (the only
entry the map has in the intended configuration; `Decode` admits no other
version string, so no other entry is ever consulted). -/
structure Protocol where
  keys : KeyPool

/-- Go `Protocol.MAC`: derive a 64-byte key for the key ring and emit a
`tag` envelope of the DV1 MAC512 of the message. -/
def Protocol.MAC (p : Protocol) (keyRing message : List Nat) :
    Except (List Nat) (List Nat) :=
  match p.keys.KDF64 (keyRingToBytes keyRing) with
  | .error e => .error e
  | .ok key =>
    match DV1.MAC512 key message with
    | .error e => .error e
    | .ok buffer => .ok (Encode Tagged buffer)

/-- Go `Protocol.deriveTOTPKey`: the derivation chain
`totpSK = KDF64(keyRing)`, `intermediate = MAC512(totpSK, rawID)`,
`key = MAC256(intermediate, accountID)`; versions other than `dv1` fall
through the switch and yield the zero value. -/
def Protocol.deriveTOTPKey (p : Protocol) (keyRing rawID accountID version : List Nat) :
    Except (List Nat) (List Nat) :=
  if version = goStr "dv1" then
    match p.keys.KDF64 keyRing with
    | .error e => .error e
    | .ok totpSK =>
      match DV1.MAC512 totpSK rawID with
      | .error e => .error e
      | .ok intermediate => DV1.MAC256 intermediate accountID
  else .ok []

/-- Go `Protocol.GenerateTOTP` with the 32 random bytes (`rawID`, drawn
from `crypto/rand` in the source) passed explicitly: encode the selector
id, derive the TOTP secret, and format the SHA256/6/30 URI. -/
def Protocol.GenerateTOTP (p : Protocol)
    (keyRing issuer accountName accountID rawID : List Nat) :
    Except (List Nat) (List Nat × List Nat) :=
  let id := Encode TOTP rawID
  match p.deriveTOTPKey (keyRingToBytes keyRing) rawID accountID Version with
  | .error e => .error e
  | .ok key =>
    .ok (id, totp.URI ⟨key, goStr "SHA256", 6, 30, issuer, accountName⟩)

/-- Go `Protocol.VerifyTOTP` (`now` is the verification time): decode the
selector id, re-derive the TOTP secret, and verify the code against the
SHA256/6/30 TOTP object; versions other than `dv1` fall through the switch
as `(false, nil)`. -/
def Protocol.VerifyTOTP (p : Protocol) (keyRing id accountID code : List Nat)
    (now : Nat) : Except (List Nat) Bool :=
  match DecodeExpect id TOTP with
  | .error e => .error e
  | .ok (v, rawID) =>
    match p.deriveTOTPKey (keyRingToBytes keyRing) rawID accountID v with
    | .error e => .error e
    | .ok key =>
      if v = goStr "dv1" then totp.Verify ⟨key, goStr "SHA256", 6, 30, [], []⟩ code now
      else .ok false

theorem MAC256_ok (key message : List Nat) (h : key.length = 64) :
    DV1.MAC256 key message = .ok (blake2b 32 key message) := by
  rw [DV1.MAC256, if_neg (by omega)]

theorem MAC512_ok (key message : List Nat) (h : key.length = 64) :
    DV1.MAC512 key message = .ok (blake2b 64 key message) := by
  rw [DV1.MAC512, if_neg (by omega)]

/-- With a 64-byte root key the software pool always derives, and the TOTP
derivation chain succeeds with the exact MAC composition. -/
theorem deriveTOTPKey_sw (rootKey keyRing rawID accountID : List Nat)
    (hroot : rootKey.length = 64) :
    (Protocol.deriveTOTPKey ⟨WrapDVXAsKeyPool rootKey⟩ keyRing rawID accountID
        (goStr "dv1")) =
      .ok (blake2b 32 (blake2b 64 (blake2b 64 rootKey keyRing) rawID) accountID) := by
  have h1 : (WrapDVXAsKeyPool rootKey).KDF64 keyRing =
      Except.ok (blake2b 64 rootKey keyRing) := MAC512_ok rootKey keyRing hroot
  have h2 : DV1.MAC512 (blake2b 64 rootKey keyRing) rawID =
      Except.ok (blake2b 64 (blake2b 64 rootKey keyRing) rawID) :=
    MAC512_ok _ _ (blake2b_len 64 rootKey keyRing (by omega))
  have h3 : DV1.MAC256 (blake2b 64 (blake2b 64 rootKey keyRing) rawID) accountID =
      Except.ok (blake2b 32 (blake2b 64 (blake2b 64 rootKey keyRing) rawID) accountID) :=
    MAC256_ok _ _ (blake2b_len 64 _ rawID (by omega))
  simp [Protocol.deriveTOTPKey, h1, h2, h3]

end dvx

/-! ## TEARC cache (`utils/tearc`)

Durations are modelled as `Int` nanoseconds (Go `time.Duration`), instants
as `Int` nanoseconds since the epoch. The loader and the load-info value
are type parameters, as in Go they are a function value and an
`interface{}`. -/

namespace tearc

/-- `BucketConfig` of `utils/tearc`. -/
structure BucketConfig where
  MinTick : Int
  MaxTick : Int

/-- Go `NewCache` configuration validation (`tearc.go` lines 28-53): the
checks in source order. `hasLoader` is `loader != nil`. A `nil` evicted
callback is replaced by a no-op rather than rejected; the construction of
the shard buckets after the checks always succeeds. -/
def NewCache (size shards : Int) (hasLoader : Bool) (config : Option BucketConfig) :
    Except (List Nat) Unit :=
  if size ≤ 0 then
    .error (goStr "tearc: size cannot be non-positive! Must be greater than zero")
  else if shards ≤ 0 then
    .error (goStr "tearc: shards cannot be non-positive! Must be greater than zero")
  else if size % shards ≠ 0 then
    .error (goStr "tearc: size must be easily dividable into shards")
  else if hasLoader = false then
    .error (goStr "tearc: loader must not be nil")
  else
    match config with
    | none => .error (goStr "tearc: config must not be nil")
    | some c =>
      if c.MinTick ≥ c.MaxTick then
        .error (goStr "tearc: config.MinTick must be less than config.MustTick")
      else .ok ()

/-- An eviction-queue entry (`heapItem`). -/
structure HeapItem where
  key : List Nat
  evictionTime : Int
  index : Int

/-- The mutable state of one bucket: the ARC cache contents (an association
list keyed by the cache key; the ARC replacement policy of the `gcache`
library does not matter for the properties proved here), the eviction
queue, and the key-to-heap-entry map. -/
structure BucketState (α : Type) where
  arc : List (List Nat × α)
  eq : List HeapItem
  eqPtrMap : List (List Nat × HeapItem)

/-- Association-list lookup. -/
def assocFind {α : Type} : List (List Nat × α) → List Nat → Option α
  | [], _ => none
  | (k2, v) :: rest, k => if k2 = k then some v else assocFind rest k

/-- Association-list insert-or-replace. -/
def assocSet {α : Type} : List (List Nat × α) → List Nat → α → List (List Nat × α)
  | [], k, v => [(k, v)]
  | (k2, v2) :: rest, k, v =>
    if k2 = k then (k, v) :: rest else (k2, v2) :: assocSet rest k v

/-- Go `heap.Push` appends the item and restores heap order by sift-up; the
internal element order of the queue is irrelevant to the properties proved
here, so the model keeps insertion order. -/
def heapPush (eq : List HeapItem) (item : HeapItem) : List HeapItem := eq ++ [item]

/-- Go `bucket.loadAndSet`: call the loader; on error, wrap and return it
without touching any bucket state; on success insert into the ARC, then
record a heap entry with deadline `now + evictIn` and map it. (The
`arc.Set` error branch is dead with the library configuration used:
no serializer is installed, so `Set` always returns nil.) -/
def loadAndSet {α β : Type} (loader : List Nat → β → Except (List Nat) (α × Int))
    (now : Int) (b : BucketState α) (key : List Nat) (loadInfo : β) :
    Except (List Nat) α × BucketState α :=
  match loader key loadInfo with
  | .error e => (.error (goStr "tearc: unable to load value with LoaderFunc: " ++ e), b)
  | .ok (value, evictIn) =>
    let item : HeapItem := ⟨key, now + evictIn, Int.ofNat b.eq.length⟩
    (.ok value,
     { arc := assocSet b.arc key value,
       eqPtrMap := assocSet b.eqPtrMap key item,
       eq := heapPush b.eq item })

/-- Go `bucket.Get`: on an ARC hit return the value and slide the entry
deadline to `now + 1 minute` (the refresh goroutine is modelled as having
completed; a key absent from the pointer map is left alone); on a miss,
`loadAndSet`. -/
def bucketGet {α β : Type} (loader : List Nat → β → Except (List Nat) (α × Int))
    (now : Int) (b : BucketState α) (key : List Nat) (loadInfo : β) :
    Except (List Nat) α × BucketState α :=
  match assocFind b.arc key with
  | none => loadAndSet loader now b key loadInfo
  | some value =>
    match assocFind b.eqPtrMap key with
    | none => (.ok value, b)
    | some item =>
      let item2 := { item with evictionTime := now + 60000000000 }
      (.ok value,
       { b with eqPtrMap := assocSet b.eqPtrMap key item2,
                eq := b.eq.map (fun it => if it.key = key then item2 else it) })

end tearc

/-! ## Claim theorems -/

/-- C1: keyRing normalization. A string without a colon is used as its own
bytes; with a colon, the suffix after the first colon is tried as unpadded
standard base64 — on success the decoded bytes are the KDF input, on
failure the full original string bytes are. Consequently `"totp:dG90cA"`
and `"anything:dG90cA"` map to equal KDF inputs and the pool derives the
same key for both. -/
theorem C1_keyring_normalization :
    (∀ s : List Nat, 58 ∉ s → dvx.keyRingToBytes s = s) ∧
    (∀ a b d : List Nat, 58 ∉ a → b64DecodeGo false b = .ok d →
      dvx.keyRingToBytes (a ++ 58 :: b) = d) ∧
    (∀ a b e : List Nat, 58 ∉ a → b64DecodeGo false b = .error e →
      dvx.keyRingToBytes (a ++ 58 :: b) = a ++ 58 :: b) ∧
    dvx.keyRingToBytes (goStr "totp:dG90cA") =
      dvx.keyRingToBytes (goStr "anything:dG90cA") ∧
    (∀ rootKey : List Nat,
      (dvx.WrapDVXAsKeyPool rootKey).KDF32 (dvx.keyRingToBytes (goStr "totp:dG90cA")) =
      (dvx.WrapDVXAsKeyPool rootKey).KDF32
        (dvx.keyRingToBytes (goStr "anything:dG90cA"))) := by
  refine ⟨dvx.keyRingToBytes_no_colon, dvx.keyRingToBytes_colon_ok,
    dvx.keyRingToBytes_colon_err, by decide, ?_⟩
  intro rootKey
  rw [show dvx.keyRingToBytes (goStr "totp:dG90cA") =
    dvx.keyRingToBytes (goStr "anything:dG90cA") by decide]

theorem C1_keyring_normalization_witness :
    dvx.keyRingToBytes (goStr "totp" ++ 58 :: goStr "dG90cA") = goStr "totp" :=
  C1_keyring_normalization.2.1 (goStr "totp") (goStr "dG90cA") (goStr "totp")
    (by decide) rfl

/-- C4: the software pool `Close` is claimed to overwrite every byte of the
retained root key buffer with zeros before release; the code only executes
`d.rootKey = nil`, which never writes into the backing array. At the
failing input (a root key of 64 one-bytes) the buffer still holds its
non-zero bytes after `Close`. -/
theorem C4_close_does_not_zero_root :
    (∀ st : dvx.DvxWrapperMem, (dvx.dvxWrapperClose st).rootKeyBuf = st.rootKeyBuf) ∧
    (dvx.dvxWrapperClose ⟨List.replicate 64 1, false⟩).rootKeyNil = true ∧
    ((dvx.dvxWrapperClose ⟨List.replicate 64 1, false⟩).rootKeyBuf.all (· = 0)) =
      false :=
  ⟨fun _ => rfl, rfl, by decide⟩

/-- C5: envelope round trip — for every type prefix in
`{enc, sig, tag, totp}` and every byte string, `Decode (Encode tp x)`
succeeds with version `dv1`, the same type prefix, and the same data. -/
theorem C5_decode_encode_roundtrip (tp data : List Nat)
    (htp : tp = dvx.Encrypted ∨ tp = dvx.Signed ∨ tp = dvx.Tagged ∨ tp = dvx.TOTP)
    (hdata : ∀ b ∈ data, b < 256) :
    dvx.Decode (dvx.Encode tp data) = .ok (dvx.Version, tp, data) :=
  dvx.Decode_Encode tp data htp hdata

theorem C5_decode_encode_roundtrip_witness :
    dvx.Decode (dvx.Encode dvx.Encrypted [0, 255, 7]) =
      .ok (dvx.Version, dvx.Encrypted, [0, 255, 7]) :=
  C5_decode_encode_roundtrip dvx.Encrypted [0, 255, 7] (Or.inl rfl) (by decide)

/-- C6: `Decode` rejections — a successful decode forces exactly three
dot-separated segments with version `dv1`, a known type prefix and a valid
raw-URL-base64 data segment (so every input violating one of these is
rejected), and the four concrete malformed inputs of the specification all
fail. -/
theorem C6_decode_rejections :
    (∀ s v tp d : List Nat, dvx.Decode s = .ok (v, tp, d) →
      v = dvx.Version ∧
      (tp = dvx.Encrypted ∨ tp = dvx.Signed ∨ tp = dvx.Tagged ∨ tp = dvx.TOTP) ∧
      ∃ seg, splitAll 46 s = [dvx.Version, tp, seg] ∧ b64DecodeGo true seg = .ok d) ∧
    (dvx.Decode (goStr "dv2.enc.AAAA")).isOk = false ∧
    (dvx.Decode (goStr "dv1.xxx.AAAA")).isOk = false ∧
    (dvx.Decode (goStr "dv1.enc")).isOk = false ∧
    (dvx.Decode (goStr "dv1.enc.!!!")).isOk = false :=
  ⟨dvx.Decode_ok_inv, by decide, by decide, by decide, by decide⟩

theorem C6_decode_rejections_witness :
    goStr "dv1" = dvx.Version ∧
    (goStr "enc" = dvx.Encrypted ∨ goStr "enc" = dvx.Signed ∨
      goStr "enc" = dvx.Tagged ∨ goStr "enc" = dvx.TOTP) ∧
    ∃ seg, splitAll 46 (goStr "dv1.enc.AAAA") = [dvx.Version, goStr "enc", seg] ∧
      b64DecodeGo true seg = .ok [0, 0, 0] :=
  C6_decode_rejections.1 (goStr "dv1.enc.AAAA") (goStr "dv1") (goStr "enc") [0, 0, 0]
    rfl

/-- C2: DV1 AEAD layout and round trip — for every 32-byte key, plaintext
and 24-byte nonce value, `Encrypt` succeeds and the blob is
`nonce ‖ ciphertext ‖ tag` with `len(ciphertext) = len(plaintext)` and a
16-byte tag computed over associated data `"dv1" ‖ nonce`; `Decrypt` of
the blob returns exactly the plaintext. -/
theorem C2_dv1_encrypt_decrypt (key data nonce : List Nat)
    (hkey : key.length = 32) (hnonce : nonce.length = 24) :
    dvx.DV1.Encrypt key data nonce =
      .ok (nonce ++
        (cc20p1305Ct (xchachaSubkey key nonce) (xchachaNonce nonce) data ++
         cc20p1305Tag (xchachaSubkey key nonce) (xchachaNonce nonce)
           (dvx.Version ++ nonce)
           (cc20p1305Ct (xchachaSubkey key nonce) (xchachaNonce nonce) data))) ∧
    (cc20p1305Ct (xchachaSubkey key nonce) (xchachaNonce nonce) data).length =
      data.length ∧
    (cc20p1305Tag (xchachaSubkey key nonce) (xchachaNonce nonce) (dvx.Version ++ nonce)
      (cc20p1305Ct (xchachaSubkey key nonce) (xchachaNonce nonce) data)).length = 16 ∧
    dvx.DV1.Decrypt key (nonce ++
      (cc20p1305Ct (xchachaSubkey key nonce) (xchachaNonce nonce) data ++
       cc20p1305Tag (xchachaSubkey key nonce) (xchachaNonce nonce)
         (dvx.Version ++ nonce)
         (cc20p1305Ct (xchachaSubkey key nonce) (xchachaNonce nonce) data))) =
      .ok data := by
  refine ⟨?_, cc20p1305Ct_length _ _ _, cc20p1305Tag_length _ _ _ _, ?_⟩
  · rw [dvx.DV1.Encrypt, if_neg (by omega)]
    rfl
  · exact dvx.DV1_Decrypt_Encrypt key data nonce hkey hnonce

theorem C2_dv1_encrypt_decrypt_witness :
    ∃ blob, dvx.DV1.Encrypt (List.replicate 32 0) [1, 2, 3] (List.range 24) = .ok blob ∧
      dvx.DV1.Decrypt (List.replicate 32 0) blob = .ok [1, 2, 3] := by
  obtain ⟨h1, -, -, h4⟩ :=
    C2_dv1_encrypt_decrypt (List.replicate 32 0) [1, 2, 3] (List.range 24)
      (by decide) (by decide)
  exact ⟨_, h1, h4⟩

/-- C3: TOTP derivation chain — with the software pool over a 64-byte root
key, `GenerateTOTP` and `VerifyTOTP` derive the TOTP secret by exactly
`totpSK = KDF64(normalized keyRing)`, `intermediate = MAC512(totpSK,
rawID)`, `totpSecret = MAC256(intermediate, accountID)` where `rawID` is
the 32 random bytes carried inside the `totp` envelope id; the secret is
32 bytes and the TOTP object always uses SHA256, 6 digits and period 30. -/
theorem C3_totp_derivation_chain
    (rootKey keyRing issuer accountName accountID rawID code : List Nat) (now : Nat)
    (hroot : rootKey.length = 64) (_hraw : rawID.length = 32)
    (hbytes : ∀ b ∈ rawID, b < 256) :
    ∃ totpSK intermediate totpSecret : List Nat,
      (dvx.WrapDVXAsKeyPool rootKey).KDF64 (dvx.keyRingToBytes keyRing) = .ok totpSK ∧
      dvx.DV1.MAC512 totpSK rawID = .ok intermediate ∧
      dvx.DV1.MAC256 intermediate accountID = .ok totpSecret ∧
      totpSecret.length = 32 ∧
      dvx.Protocol.deriveTOTPKey ⟨dvx.WrapDVXAsKeyPool rootKey⟩
        (dvx.keyRingToBytes keyRing) rawID accountID (goStr "dv1") = .ok totpSecret ∧
      dvx.Protocol.GenerateTOTP ⟨dvx.WrapDVXAsKeyPool rootKey⟩
        keyRing issuer accountName accountID rawID =
        .ok (dvx.Encode dvx.TOTP rawID,
          totp.URI ⟨totpSecret, goStr "SHA256", 6, 30, issuer, accountName⟩) ∧
      dvx.Protocol.VerifyTOTP ⟨dvx.WrapDVXAsKeyPool rootKey⟩
        keyRing (dvx.Encode dvx.TOTP rawID) accountID code now =
        totp.Verify ⟨totpSecret, goStr "SHA256", 6, 30, [], []⟩ code now := by
  have hsw := dvx.deriveTOTPKey_sw rootKey (dvx.keyRingToBytes keyRing) rawID accountID hroot
  refine ⟨blake2b 64 rootKey (dvx.keyRingToBytes keyRing),
    blake2b 64 (blake2b 64 rootKey (dvx.keyRingToBytes keyRing)) rawID,
    blake2b 32 (blake2b 64 (blake2b 64 rootKey (dvx.keyRingToBytes keyRing)) rawID)
      accountID, ?_, ?_, ?_, ?_, hsw, ?_, ?_⟩
  · exact dvx.MAC512_ok rootKey _ hroot
  · exact dvx.MAC512_ok _ _ (blake2b_len 64 _ _ (by omega))
  · exact dvx.MAC256_ok _ _ (blake2b_len 64 _ _ (by omega))
  · exact blake2b_len 32 _ _ (by omega)
  · simp only [dvx.Protocol.GenerateTOTP, dvx.Version]
    rw [hsw]
  · have hdec : dvx.DecodeExpect (dvx.Encode dvx.TOTP rawID) dvx.TOTP =
        .ok (dvx.Version, rawID) :=
      dvx.DecodeExpect_Encode dvx.TOTP rawID (Or.inr (Or.inr (Or.inr rfl))) hbytes
    simp only [dvx.Protocol.VerifyTOTP, hdec]
    simp only [dvx.Version]
    rw [hsw]
    simp

theorem C3_totp_derivation_chain_witness :
    ∃ totpSK intermediate totpSecret : List Nat,
      (dvx.WrapDVXAsKeyPool (List.replicate 64 0)).KDF64
        (dvx.keyRingToBytes (goStr "totp")) = .ok totpSK ∧
      dvx.DV1.MAC512 totpSK (List.replicate 32 1) = .ok intermediate ∧
      dvx.DV1.MAC256 intermediate (goStr "a1-id") = .ok totpSecret ∧
      totpSecret.length = 32 ∧
      dvx.Protocol.deriveTOTPKey ⟨dvx.WrapDVXAsKeyPool (List.replicate 64 0)⟩
        (dvx.keyRingToBytes (goStr "totp")) (List.replicate 32 1) (goStr "a1-id")
        (goStr "dv1") = .ok totpSecret ∧
      dvx.Protocol.GenerateTOTP ⟨dvx.WrapDVXAsKeyPool (List.replicate 64 0)⟩
        (goStr "totp") (goStr "i") (goStr "a1") (goStr "a1-id") (List.replicate 32 1) =
        .ok (dvx.Encode dvx.TOTP (List.replicate 32 1),
          totp.URI ⟨totpSecret, goStr "SHA256", 6, 30, goStr "i", goStr "a1"⟩) ∧
      dvx.Protocol.VerifyTOTP ⟨dvx.WrapDVXAsKeyPool (List.replicate 64 0)⟩
        (goStr "totp") (dvx.Encode dvx.TOTP (List.replicate 32 1)) (goStr "a1-id")
        (goStr "000000") 0 =
        totp.Verify ⟨totpSecret, goStr "SHA256", 6, 30, [], []⟩ (goStr "000000") 0 :=
  C3_totp_derivation_chain (List.replicate 64 0) (goStr "totp") (goStr "i")
    (goStr "a1") (goStr "a1-id") (List.replicate 32 1) (goStr "000000") 0
    (by decide) (by decide) (by decide)

/-- The dynamic-truncation-and-pad computation of `generateOTP` agrees
with its arithmetic description whenever the MAC output is long enough. -/
theorem otp_truncate_pad (h : List Nat) (off digits : Nat)
    (hoff : off + 4 ≤ h.length) (hdig : digits = 6 ∨ digits = 8) :
    totp.padCode digits digits (toDec (beNat
      (((h.drop off).take 4).set 0 (((h.drop off).take 4).getD 0 0 % 128)) %
        10 ^ digits)) =
    List.replicate (digits - (toDec ((h.getD off 0 % 128 * 2 ^ 24 +
      h.getD (off + 1) 0 * 2 ^ 16 + h.getD (off + 2) 0 * 2 ^ 8 +
      h.getD (off + 3) 0) % 10 ^ digits)).length) 48 ++
    toDec ((h.getD off 0 % 128 * 2 ^ 24 + h.getD (off + 1) 0 * 2 ^ 16 +
      h.getD (off + 2) 0 * 2 ^ 8 + h.getD (off + 3) 0) % 10 ^ digits) := by
  rw [take4_drop h off hoff]
  have hset : ([h.getD off 0, h.getD (off + 1) 0, h.getD (off + 2) 0,
      h.getD (off + 3) 0].set 0 ([h.getD off 0, h.getD (off + 1) 0, h.getD (off + 2) 0,
      h.getD (off + 3) 0].getD 0 0 % 128)) =
      [h.getD off 0 % 128, h.getD (off + 1) 0, h.getD (off + 2) 0,
       h.getD (off + 3) 0] := rfl
  rw [hset]
  have hbe : beNat [h.getD off 0 % 128, h.getD (off + 1) 0, h.getD (off + 2) 0,
      h.getD (off + 3) 0] = h.getD off 0 % 128 * 2 ^ 24 + h.getD (off + 1) 0 * 2 ^ 16 +
      h.getD (off + 2) 0 * 2 ^ 8 + h.getD (off + 3) 0 := by
    simp [beNat]
    ring
  rw [hbe]
  have hpos : 0 < 10 ^ digits := Nat.pos_pow_of_pos digits (by omega)
  have hlt : (h.getD off 0 % 128 * 2 ^ 24 + h.getD (off + 1) 0 * 2 ^ 16 +
      h.getD (off + 2) 0 * 2 ^ 8 + h.getD (off + 3) 0) % 10 ^ digits < 10 ^ digits :=
    Nat.mod_lt _ hpos
  have hd0 : 0 < digits := by rcases hdig with rfl | rfl <;> omega
  have hlen : (toDec ((h.getD off 0 % 128 * 2 ^ 24 + h.getD (off + 1) 0 * 2 ^ 16 +
      h.getD (off + 2) 0 * 2 ^ 8 + h.getD (off + 3) 0) % 10 ^ digits)).length ≤ digits :=
    toDec_len _ digits hlt hd0
  exact padCode_eq digits digits _ hlen (by omega)

/-- C7: `generateOTP` equals the RFC 4226 reference computation for every
non-empty secret, algorithm in `{SHA1, SHA256, SHA512}`, digit count in
`{6, 8}` and counter. -/
theorem C7_generate_otp_rfc4226 (secret algorithm : List Nat) (digits counter : Nat)
    (_hsec : secret ≠ [])
    (halg : algorithm = goStr "SHA1" ∨ algorithm = goStr "SHA256" ∨
      algorithm = goStr "SHA512")
    (hdig : digits = 6 ∨ digits = 8) :
    totp.generateOTP secret algorithm digits counter =
      .ok (totp.rfc4226Reference secret algorithm digits counter) := by
  have hdigneg : ¬(digits ≠ 6 ∧ digits ≠ 8) := by rcases hdig with rfl | rfl <;> simp
  rcases halg with rfl | rfl | rfl
  · have e1 : (goStr "SHA1" ≠ goStr "SHA1" ∧ goStr "SHA1" ≠ goStr "SHA256" ∧
        goStr "SHA1" ≠ goStr "SHA512") = False := eq_false (by decide)
    have e2 : (goStr "SHA1" = goStr "SHA1") = True := eq_true rfl
    simp only [totp.generateOTP, totp.rfc4226Reference, e1, e2, if_false, if_true]
    rw [if_neg hdigneg]
    refine congrArg Except.ok (otp_truncate_pad _ _ digits ?_ hdig)
    have hl := hmacSha1_length secret (beBytes 8 (counter % 2 ^ 64))
    have : (hmacSha1 secret (beBytes 8 (counter % 2 ^ 64))).getD
        ((hmacSha1 secret (beBytes 8 (counter % 2 ^ 64))).length - 1) 0 % 16 < 16 :=
      Nat.mod_lt _ (by omega)
    omega
  · have e1 : (goStr "SHA256" ≠ goStr "SHA1" ∧ goStr "SHA256" ≠ goStr "SHA256" ∧
        goStr "SHA256" ≠ goStr "SHA512") = False := eq_false (by decide)
    have e2 : (goStr "SHA256" = goStr "SHA1") = False := eq_false (by decide)
    have e3 : (goStr "SHA256" = goStr "SHA256") = True := eq_true rfl
    simp only [totp.generateOTP, totp.rfc4226Reference, e1, e2, e3, if_false, if_true]
    rw [if_neg hdigneg]
    refine congrArg Except.ok (otp_truncate_pad _ _ digits ?_ hdig)
    have hl := hmacSha256_length secret (beBytes 8 (counter % 2 ^ 64))
    have : (hmacSha256 secret (beBytes 8 (counter % 2 ^ 64))).getD
        ((hmacSha256 secret (beBytes 8 (counter % 2 ^ 64))).length - 1) 0 % 16 < 16 :=
      Nat.mod_lt _ (by omega)
    omega
  · have e1 : (goStr "SHA512" ≠ goStr "SHA1" ∧ goStr "SHA512" ≠ goStr "SHA256" ∧
        goStr "SHA512" ≠ goStr "SHA512") = False := eq_false (by decide)
    have e2 : (goStr "SHA512" = goStr "SHA1") = False := eq_false (by decide)
    have e3 : (goStr "SHA512" = goStr "SHA256") = False := eq_false (by decide)
    simp only [totp.generateOTP, totp.rfc4226Reference, e1, e2, e3, if_false, if_true]
    rw [if_neg hdigneg]
    refine congrArg Except.ok (otp_truncate_pad _ _ digits ?_ hdig)
    have hl := hmacSha512_length secret (beBytes 8 (counter % 2 ^ 64))
    have : (hmacSha512 secret (beBytes 8 (counter % 2 ^ 64))).getD
        ((hmacSha512 secret (beBytes 8 (counter % 2 ^ 64))).length - 1) 0 % 16 < 16 :=
      Nat.mod_lt _ (by omega)
    omega

theorem C7_generate_otp_rfc4226_witness :
    totp.generateOTP [1, 2, 3] (goStr "SHA1") 6 0 =
      .ok (totp.rfc4226Reference [1, 2, 3] (goStr "SHA1") 6 0) :=
  C7_generate_otp_rfc4226 [1, 2, 3] (goStr "SHA1") 6 0 (by decide) (Or.inl rfl)
    (Or.inl rfl)

/-- C8 counterexample: the claim requires `NewCache` to fail on every
configuration with a non-positive duration, but a config with
`minTick = -2ns < maxTick = -1ns` (both non-positive) is accepted; and it
requires success on every configuration meeting the listed constraints,
but `size = 0` (which satisfies `size % shards == 0` with positive ticks)
is rejected. -/
theorem C8_counterexample_newcache :
    (tearc.NewCache 4 2 true (some ⟨-2, -1⟩)).isOk = true ∧
    ((-2 : Int) ≤ 0 ∧ (-1 : Int) ≤ 0) ∧
    (tearc.NewCache 0 1 true (some ⟨1, 2⟩)).isOk = false := by
  refine ⟨by decide, by decide, by decide⟩

/-- C8 (amended): `NewCache` succeeds exactly when `size > 0`,
`shards > 0`, `size % shards == 0`, the loader and config are non-nil, and
`minTick < maxTick`; positivity of the tick durations themselves is not
validated. -/
theorem C8_amended_newcache_validation (size shards : Int) (hasLoader : Bool)
    (config : Option tearc.BucketConfig) :
    (tearc.NewCache size shards hasLoader config).isOk = true ↔
      (0 < size ∧ 0 < shards ∧ size % shards = 0 ∧ hasLoader = true ∧
        ∃ c, config = some c ∧ c.MinTick < c.MaxTick) := by
  rw [tearc.NewCache.eq_def]
  split_ifs with h1 h2 h3 h4
  · simp only [Except.isOk, Except.toBool, Bool.false_eq_true, false_iff]
    rintro ⟨hs, -⟩
    omega
  · simp only [Except.isOk, Except.toBool, Bool.false_eq_true, false_iff]
    rintro ⟨-, hs, -⟩
    omega
  · simp only [Except.isOk, Except.toBool, Bool.false_eq_true, false_iff]
    rintro ⟨-, -, hs, -⟩
    omega
  · simp only [Except.isOk, Except.toBool, Bool.false_eq_true, false_iff]
    rintro ⟨-, -, -, hs, -⟩
    simp [hs] at h4
  · split
    next =>
      simp only [Except.isOk, Except.toBool, Bool.false_eq_true, false_iff]
      rintro ⟨-, -, -, -, c, hc, -⟩
      exact absurd hc (by simp)
    next c =>
      by_cases htick : c.MinTick ≥ c.MaxTick
      · rw [if_pos htick]
        simp only [Except.isOk, Except.toBool, Bool.false_eq_true, false_iff]
        rintro ⟨-, -, -, -, c2, hc2, hlt⟩
        obtain rfl : c = c2 := by injection hc2
        omega
      · rw [if_neg htick]
        simp only [Except.isOk, Except.toBool, true_iff]
        refine ⟨by omega, by omega, by omega, by simpa using h4, c, rfl, by omega⟩

/-- C9: loader failure is atomic — on a `Get` miss whose load fails, the
wrapped loader error is returned and the bucket state (ARC contents,
eviction queue and pointer map) is exactly the state before the call. -/
theorem C9_loader_failure_atomic (α β : Type)
    (loader : List Nat → β → Except (List Nat) (α × Int)) (now : Int)
    (b : tearc.BucketState α) (key : List Nat) (info : β) (e : List Nat)
    (hmiss : tearc.assocFind b.arc key = none)
    (herr : loader key info = .error e) :
    tearc.bucketGet loader now b key info =
      (.error (goStr "tearc: unable to load value with LoaderFunc: " ++ e), b) := by
  simp only [tearc.bucketGet, hmiss, tearc.loadAndSet, herr]

theorem C9_loader_failure_atomic_witness :
    tearc.bucketGet (fun (_ : List Nat) (_ : Nat) => Except.error (goStr "boom")) 0
      (tearc.BucketState.mk (α := Nat) [] [] []) [107] 32 =
      (.error (goStr "tearc: unable to load value with LoaderFunc: " ++ goStr "boom"),
       tearc.BucketState.mk [] [] []) :=
  C9_loader_failure_atomic Nat Nat (fun _ _ => Except.error (goStr "boom")) 0
    ⟨[], [], []⟩ [107] 32 (goStr "boom") rfl rfl

/-- C10: `TOTP.Verify` never returns a non-nil error: it always yields
`ok`, and whenever the internal `Generate` fails (for any cause) it
returns `(false, nil)`, indistinguishable from a wrong code. -/
theorem C10_verify_swallows_generate_errors :
    (∀ (t : totp.TOTP) (code : List Nat) (now : Nat),
      ∃ b, totp.Verify t code now = .ok b) ∧
    (∀ (t : totp.TOTP) (code : List Nat) (now : Nat) (e : List Nat),
      totp.Generate t now = .error e → totp.Verify t code now = .ok false) := by
  constructor
  · intro t code now
    rw [totp.Verify]
    cases totp.Generate t now
    · exact ⟨false, rfl⟩
    · exact ⟨_, rfl⟩
  · intro t code now e h
    rw [totp.Verify, h]

theorem C10_verify_swallows_generate_errors_witness :
    totp.Verify ⟨[], goStr "SHA1", 6, 30, [], []⟩ [] 0 = .ok false :=
  C10_verify_swallows_generate_errors.2 ⟨[], goStr "SHA1", 6, 30, [], []⟩ [] 0
    (goStr "dvx/totp: secret is emtpy") rfl

end Azoo
